import Mathlib

/-!
Shallow embedding of the canvas state-and-geometry engine of
`src/app/interactive-cards/interactive-cards.component.ts` (Interactive-Cards).

Numbers are modelled as rationals (`ℚ`); JavaScript `Math.round` is `⌊x + 1/2⌋`
(round half towards positive infinity).  Card objects are identified by the
numeric suffix of their id string `card<N>` (ids are assigned from the
monotone counter `cardCount` and never reused, so JavaScript reference
equality of card objects coincides with equality of these numbers).
Connectors and the selection store card ids for the same reason.  The derived
SVG path of a connector and all other DOM/render state (`updateLines`,
`path` attributes, cursor styles, the sidebar flag) are presentation-layer
and are not part of the model.
-/

namespace ICards

/-- JavaScript `Math.round`: round to nearest, half towards +∞. -/
def jsRound (q : ℚ) : ℤ := ⌊q + 1/2⌋

/-- A card (`interface Card`); `id` is the numeric suffix of `card<N>`. -/
structure Card where
  id : Nat
  title : String
  inputValue : String
  baseX : ℚ
  baseY : ℚ
  baseWidth : ℚ
  baseHeight : ℚ
  deriving DecidableEq, Repr

/-- A connector (`interface Connector`), endpoints stored as card ids. -/
structure Connector where
  fromId : Nat
  toId : Nat
  deriving DecidableEq, Repr

/-- One endpoint-id pair of a clipboard entry (`connections` element). -/
structure ClipConn where
  fromId : Nat
  toId : Nat
  deriving DecidableEq, Repr

/-- A clipboard entry as built by `copyCards`. -/
structure ClipEntry where
  baseX : ℚ
  baseY : ℚ
  baseWidth : ℚ
  baseHeight : ℚ
  title : String
  inputValue : String
  connections : List ClipConn
  deriving DecidableEq, Repr

/-- The component's engine state (fields of `InteractiveCardsComponent`). -/
structure EngineState where
  scale : ℚ
  cardCount : Nat
  cards : List Card
  connectors : List Connector
  connectingFrom : Option Nat
  selectedCards : List Nat
  clipboard : List ClipEntry
  gridSpacing : ℚ
  deriving DecidableEq, Repr

/-- `snapToGrid(value)`: round to the nearest multiple of `gridSpacing * scale`. -/
def EngineState.snapToGrid (st : EngineState) (value : ℚ) : ℚ :=
  (jsRound (value / (st.gridSpacing * st.scale)) : ℚ) * (st.gridSpacing * st.scale)

/-- Default title of the card with numeric id `n`: `Card <n>`.  This is also
the string produced by `id.replace('card', 'Card ')` on the id `card<n>`,
the key transformation used by `pasteCards`. -/
def defaultTitle (n : Nat) : String := "Card " ++ Nat.repr n

/-- `addNewCard(x, y)` (position arguments given explicitly). -/
def addNewCard (st : EngineState) (x y : ℚ) : EngineState :=
  let n := st.cardCount + 1
  let newCard : Card :=
    { id := n
      title := defaultTitle n
      inputValue := ""
      baseX := st.snapToGrid x
      baseY := st.snapToGrid y
      baseWidth := 200
      baseHeight := 100 }
  { st with cardCount := n, cards := st.cards ++ [newCard] }

/-- `setGridSpacing`'s clamp together with `adjustCardsAfterGridChange`:
clamp the spacing into `[10, 200]`, then re-snap every card's geometry. -/
def adjustCardsAfterGridChange (st : EngineState) : EngineState :=
  { st with cards := st.cards.map (fun card =>
      { card with
        baseX := st.snapToGrid card.baseX
        baseY := st.snapToGrid card.baseY
        baseWidth := st.snapToGrid card.baseWidth
        baseHeight := st.snapToGrid card.baseHeight }) }

/-- `setGridSpacing(size)`. -/
def setGridSpacing (st : EngineState) (size : ℚ) : EngineState :=
  adjustCardsAfterGridChange { st with gridSpacing := max 10 (min 200 size) }

/-- The loop body of `preventOverlap` for one `otherCard`.  The moving
rectangle depends only on the proposed position (the source computes it once
before the loop; it is loop-invariant, so recomputing it per element is
equivalent).  A selected or identical other card is skipped; an overlapping
one overwrites one axis of the accumulated adjusted position. -/
def overlapStep (st : EngineState) (movingCard : Card)
    (proposedX proposedY : ℚ) (acc : ℚ × ℚ) (other : Card) : ℚ × ℚ :=
  let s := st.scale
  let mLeft := proposedX * s
  let mTop := proposedY * s
  let mRight := (proposedX + movingCard.baseWidth) * s
  let mBottom := (proposedY + movingCard.baseHeight) * s
  if other.id = movingCard.id ∨ other.id ∈ st.selectedCards then acc
  else
    let oLeft := other.baseX * s
    let oTop := other.baseY * s
    let oRight := (other.baseX + other.baseWidth) * s
    let oBottom := (other.baseY + other.baseHeight) * s
    if mLeft < oRight ∧ mRight > oLeft ∧ mTop < oBottom ∧ mBottom > oTop then
      let dxLeft := oRight - mLeft
      let dxRight := mRight - oLeft
      let dyTop := oBottom - mTop
      let dyBottom := mBottom - oTop
      let minDisp := min (min |dxLeft| |dxRight|) (min |dyTop| |dyBottom|)
      if minDisp = |dxLeft| then
        (oRight / s + st.gridSpacing * s, acc.2)
      else if minDisp = |dxRight| then
        ((oLeft - movingCard.baseWidth) / s - st.gridSpacing * s, acc.2)
      else if minDisp = |dyTop| then
        (acc.1, oBottom / s + st.gridSpacing * s)
      else if minDisp = |dyBottom| then
        (acc.1, (oTop - movingCard.baseHeight) / s - st.gridSpacing * s)
      else acc
    else acc

/-- `preventOverlap(movingCard, proposedX, proposedY)`: single pass over the
card list; each overlapping non-selected other card overwrites one axis of
the adjusted position; finally both coordinates are snapped to the grid. -/
def preventOverlap (st : EngineState) (movingCard : Card)
    (proposedX proposedY : ℚ) : ℚ × ℚ :=
  let adj := st.cards.foldl (overlapStep st movingCard proposedX proposedY)
    (proposedX, proposedY)
  (st.snapToGrid adj.1, st.snapToGrid adj.2)

/-- One iteration of the `forEach` in `preventOverlapsAfterZoom`: re-resolve
the card at index `i` against the current state and store the result. -/
def afterZoomStep (st : EngineState) (i : Nat) : EngineState :=
  match st.cards[i]? with
  | none => st
  | some card =>
    let adjusted := preventOverlap st card card.baseX card.baseY
    let card' := { card with baseX := adjusted.1, baseY := adjusted.2 }
    { st with cards := st.cards.set i card' }

/-- `preventOverlapsAfterZoom()`: every card, in list order, is re-resolved
in place (later cards see the already-adjusted positions of earlier ones). -/
def preventOverlapsAfterZoom (st : EngineState) : EngineState :=
  (List.range st.cards.length).foldl afterZoomStep st

/-- `zoom(delta)`: reject (no-op) unless `scale * delta ∈ [0.5, 2]`;
otherwise rescale every card's geometry by `delta`, set the new scale and
re-resolve overlaps. -/
def zoom (st : EngineState) (delta : ℚ) : EngineState :=
  let newScale := st.scale * delta
  if 1/2 ≤ newScale ∧ newScale ≤ 2 then
    preventOverlapsAfterZoom
      { st with
        scale := newScale
        cards := st.cards.map (fun card =>
          { card with
            baseX := card.baseX * delta
            baseY := card.baseY * delta
            baseWidth := card.baseWidth * delta
            baseHeight := card.baseHeight * delta }) }
  else st

/-- `selectCard(card)`: add to the selection unless the card is the pending
`connectingFrom` card or already selected. -/
def selectCard (st : EngineState) (cid : Nat) : EngineState :=
  if st.connectingFrom = some cid then st
  else if cid ∈ st.selectedCards then st
  else { st with selectedCards := st.selectedCards ++ [cid] }

/-- `clearSelection()`: the selection survives only for the `connectingFrom`
card. -/
def clearSelection (st : EngineState) : EngineState :=
  { st with selectedCards :=
      st.selectedCards.filter (fun cid => st.connectingFrom = some cid) }

/-- Decoded pointer event: coordinates plus modifier flags, and whether the
event target is a text-input field. -/
structure PointerEvent where
  clientX : ℚ
  clientY : ℚ
  altKey : Bool
  ctrlKey : Bool
  shiftKey : Bool
  targetIsInput : Bool
  deriving DecidableEq, Repr

/-- The card's rendered rectangle (`getCardRect` fallback geometry:
position and size scaled by the current zoom). -/
def getCardRect (st : EngineState) (card : Card) : ℚ × ℚ × ℚ × ℚ :=
  (card.baseX * st.scale, card.baseY * st.scale,
   card.baseWidth * st.scale, card.baseHeight * st.scale)

/-- `isResizingEdge(card, event)`: is the pointer within the 8 edge/corner
bands (of width `borderWidth * scale = 10 * scale`) of the card rectangle? -/
def isResizingEdge (st : EngineState) (card : Card) (ev : PointerEvent) : Prop :=
  let r := getCardRect st card
  let edgeSize := 10 * st.scale
  let x := ev.clientX - r.1
  let y := ev.clientY - r.2.1
  let w := r.2.2.1
  let h := r.2.2.2
  (y ≥ -edgeSize ∧ y ≤ edgeSize ∧ x > edgeSize ∧ x < w - edgeSize) ∨
  (y ≥ h - edgeSize ∧ y ≤ h + edgeSize ∧ x > edgeSize ∧ x < w - edgeSize) ∨
  (x ≥ -edgeSize ∧ x ≤ edgeSize ∧ y > edgeSize ∧ y < h - edgeSize) ∨
  (x ≥ w - edgeSize ∧ x ≤ w + edgeSize ∧ y > edgeSize ∧ y < h - edgeSize) ∨
  (x ≥ -edgeSize ∧ x ≤ edgeSize ∧ y ≥ -edgeSize ∧ y ≤ edgeSize) ∨
  (x ≥ w - edgeSize ∧ x ≤ w + edgeSize ∧ y ≥ -edgeSize ∧ y ≤ edgeSize) ∨
  (x ≥ -edgeSize ∧ x ≤ edgeSize ∧ y ≥ h - edgeSize ∧ y ≤ h + edgeSize) ∨
  (x ≥ w - edgeSize ∧ x ≤ w + edgeSize ∧ y ≥ h - edgeSize ∧ y ≤ h + edgeSize)

instance (st : EngineState) (card : Card) (ev : PointerEvent) :
    Decidable (isResizingEdge st card ev) := by
  unfold isResizingEdge; infer_instance

/-- Synchronous state change of `onCardMouseDown`: text-input targets and
Alt-modified events do nothing; a pointer-down on an edge band starts a
resize gesture (no synchronous selection change); otherwise the selection is
updated (additive toggle with Ctrl/Shift, exclusive select otherwise) and a
drag gesture may start. -/
def onCardMouseDown (st : EngineState) (ev : PointerEvent) (card : Card) :
    EngineState :=
  if ev.targetIsInput then st
  else if ev.altKey then st
  else if isResizingEdge st card ev then st
  else if ev.ctrlKey || ev.shiftKey then
    if card.id ∈ st.selectedCards then
      { st with selectedCards := st.selectedCards.filter (fun c => c ≠ card.id) }
    else selectCard st card.id
  else if card.id ∈ st.selectedCards then st
  else selectCard (clearSelection st) card.id

/-- Commit of a drag gesture (`handleDrag`'s `onMouseUp`): snap every
selected card's position to the grid. -/
def dragCommit (st : EngineState) : EngineState :=
  { st with cards := st.cards.map (fun card =>
      if card.id ∈ st.selectedCards then
        { card with baseX := st.snapToGrid card.baseX
                    baseY := st.snapToGrid card.baseY }
      else card) }

/-- Resize direction as returned by `getResizeDirection`. -/
inductive ResizeDir where
  | top | bottom | left | right
  | topLeft | topRight | bottomLeft | bottomRight
  deriving DecidableEq, Repr

/-- One move sample of `handleResize`: starting from the geometry captured at
gesture start, apply the (zoom-corrected) pointer delta in the captured
direction; each modified dimension is clamped to its minimum (`100 / scale`
width, `50 / scale` height) and then snapped (`snapToGrid(d * scale) / scale`);
moving the top or left edge shifts the origin so the opposite edge stays
fixed (using the snapped dimension). -/
def handleResizeMove (st : EngineState) (dir : ResizeDir) (card : Card)
    (startX startY clientX clientY : ℚ) : Card :=
  let deltaX := (clientX - startX) / st.scale
  let deltaY := (clientY - startY) / st.scale
  let iW := card.baseWidth
  let iH := card.baseHeight
  let iX := card.baseX
  let iY := card.baseY
  let snapW (w : ℚ) : ℚ :=
    st.snapToGrid (max (100 / st.scale) w * st.scale) / st.scale
  let snapH (h : ℚ) : ℚ :=
    st.snapToGrid (max (50 / st.scale) h * st.scale) / st.scale
  match dir with
  | .top =>
    let nH := snapH (iH - deltaY)
    { card with baseHeight := nH, baseY := iY + (iH - nH) }
  | .bottom =>
    let nH := snapH (iH + deltaY)
    { card with baseHeight := nH }
  | .left =>
    let nW := snapW (iW - deltaX)
    { card with baseWidth := nW, baseX := iX + (iW - nW) }
  | .right =>
    let nW := snapW (iW + deltaX)
    { card with baseWidth := nW }
  | .topLeft =>
    let nW := snapW (iW - deltaX)
    let nH := snapH (iH - deltaY)
    { card with baseWidth := nW, baseHeight := nH,
                baseX := iX + (iW - nW), baseY := iY + (iH - nH) }
  | .topRight =>
    let nW := snapW (iW + deltaX)
    let nH := snapH (iH - deltaY)
    { card with baseWidth := nW, baseHeight := nH, baseY := iY + (iH - nH) }
  | .bottomLeft =>
    let nW := snapW (iW - deltaX)
    let nH := snapH (iH + deltaY)
    { card with baseWidth := nW, baseHeight := nH, baseX := iX + (iW - nW) }
  | .bottomRight =>
    let nW := snapW (iW + deltaX)
    let nH := snapH (iH + deltaY)
    { card with baseWidth := nW, baseHeight := nH }

/-- JavaScript `Array.findIndex`: index of the first element satisfying the
predicate. -/
def findIndex (p : Connector → Bool) : List Connector → Option Nat
  | [] => none
  | c :: rest => if p c then some 0 else (findIndex p rest).map (· + 1)

/-- The predicate of `onCardClick`'s connector lookup: a connector between
`cf` and `cid`, stored in either direction. -/
def betweenPred (cf cid : Nat) (c : Connector) : Bool :=
  (c.fromId == cf && c.toId == cid) || (c.fromId == cid && c.toId == cf)

/-- `onCardClick`: the Alt-modified connect-toggle.  First qualifying click
marks the card as `connectingFrom`; a second click on the same card cancels;
a click on a different card removes the first connector stored between the
two cards in either direction, or appends a new one if none exists. -/
def onCardClick (st : EngineState) (ev : PointerEvent) (card : Card) :
    EngineState :=
  if ev.altKey = true ∧ ev.targetIsInput = false then
    match st.connectingFrom with
    | none => { st with connectingFrom := some card.id }
    | some cf =>
      if cf = card.id then { st with connectingFrom := none }
      else
        match findIndex (betweenPred cf card.id) st.connectors with
        | some i =>
          { st with connectors := st.connectors.eraseIdx i,
                    connectingFrom := none }
        | none =>
          { st with connectors := st.connectors ++ [⟨cf, card.id⟩],
                    connectingFrom := none }
  else st

/-- `copyCards()`: no-op on an empty selection, otherwise snapshot every
selected card's unscaled geometry, content, and the endpoint-id pairs of all
connectors touching it. -/
def copyCards (st : EngineState) : EngineState :=
  if st.selectedCards = [] then st
  else
    { st with clipboard := st.selectedCards.filterMap (fun cid =>
        (st.cards.find? (fun c => c.id == cid)).map (fun card =>
          { baseX := card.baseX / st.scale
            baseY := card.baseY / st.scale
            baseWidth := card.baseWidth / st.scale
            baseHeight := card.baseHeight / st.scale
            title := card.title
            inputValue := card.inputValue
            connections := (st.connectors.filter (fun c =>
                c.fromId == cid || c.toId == cid)).map (fun c =>
              ⟨c.fromId, c.toId⟩) })) }

/-- Resolution of one recorded connection entry during `pasteCards`: look
both endpoint ids up in the title-keyed map of newly created cards (via
`defaultTitle`, i.e. `id.replace('card', 'Card ')`) and build a connector
when both resolve to distinct new cards. -/
def pasteConnOf (cmap : List (String × Nat)) (conn : ClipConn) :
    Option Connector :=
  match cmap.find? (fun e => e.1 == defaultTitle conn.fromId),
        cmap.find? (fun e => e.1 == defaultTitle conn.toId) with
  | some eF, some eT => if eF.2 ≠ eT.2 then some ⟨eF.2, eT.2⟩ else none
  | _, _ => none

/-- One iteration of the first `forEach` of `pasteCards`: bump the counter,
create the new card from the clipboard entry, register it in the
title-keyed map (later entries shadow earlier ones on lookup) and select it. -/
def pasteStep (scale offX offY : ℚ)
    (acc : EngineState × List (String × Nat)) (item : ClipEntry) :
    EngineState × List (String × Nat) :=
  let stA := acc.1
  let n := stA.cardCount + 1
  let newCard : Card :=
    { id := n
      title := item.title
      inputValue := item.inputValue
      baseX := (item.baseX + offX) * scale
      baseY := (item.baseY + offY) * scale
      baseWidth := item.baseWidth * scale
      baseHeight := item.baseHeight * scale }
  (selectCard { stA with cardCount := n, cards := stA.cards ++ [newCard] } n,
   (item.title, n) :: acc.2)

/-- One iteration of the `forEach` in `preventOverlapsAfterPaste`: normalise
the card's position to unscaled space, resolve, rescale and store. -/
def afterPasteStep (st : EngineState) (i : Nat) : EngineState :=
  match st.cards[i]? with
  | none => st
  | some card =>
    let adjusted := preventOverlap st card
      (card.baseX / st.scale) (card.baseY / st.scale)
    let card' := { card with baseX := adjusted.1 * st.scale,
                             baseY := adjusted.2 * st.scale }
    { st with cards := st.cards.set i card' }

/-- `preventOverlapsAfterPaste()`. -/
def preventOverlapsAfterPaste (st : EngineState) : EngineState :=
  (List.range st.cards.length).foldl afterPasteStep st

/-- `pasteCards()`: no-op on an empty clipboard; otherwise clear the
selection, create one new card per clipboard entry (selecting each and
mapping its title to the new card), then for every `connections` entry of
every clipboard item look both endpoint ids up in the title map (via
`defaultTitle`, i.e. `id.replace('card', 'Card ')`) and append a connector
when both resolve to distinct new cards; finally resolve overlaps. -/
def pasteCards (st : EngineState) : EngineState :=
  if st.clipboard = [] then st
  else
    let offX := 20 / st.scale
    let offY := 20 / st.scale
    let firstPass := st.clipboard.foldl (pasteStep st.scale offX offY)
      (clearSelection st, [])
    let st1 := firstPass.1
    let cmap := firstPass.2
    let newConns : List Connector := st.clipboard.flatMap (fun item =>
      item.connections.filterMap (pasteConnOf cmap))
    preventOverlapsAfterPaste { st1 with connectors := st1.connectors ++ newConns }

/-- `deleteSelectedCards()`: no-op (with a notice) on an empty selection;
otherwise, gated by the host's confirmation, remove the selected cards,
cascade-remove every connector touching one of them, reset `connectingFrom`
if it pointed at a removed card, and clear the selection. -/
def deleteSelectedCards (st : EngineState) (confirmed : Bool) : EngineState :=
  if st.selectedCards = [] then st
  else if confirmed then
    { st with
      cards := st.cards.filter (fun card => card.id ∉ st.selectedCards)
      connectors := st.connectors.filter (fun conn =>
        conn.fromId ∉ st.selectedCards ∧ conn.toId ∉ st.selectedCards)
      connectingFrom :=
        match st.connectingFrom with
        | some cf => if cf ∈ st.selectedCards then none else some cf
        | none => none
      selectedCards := [] }
  else st

/-! ### Helper lemmas -/

/-- `snapToGrid` always returns an integer multiple of `gridSpacing * scale`. -/
theorem snapToGrid_isMultiple (st : EngineState) (v : ℚ) :
    ∃ k : ℤ, st.snapToGrid v = k * (st.gridSpacing * st.scale) :=
  ⟨jsRound (v / (st.gridSpacing * st.scale)), rfl⟩

theorem jsRound_intCast (k : ℤ) : jsRound (k : ℚ) = k := by
  unfold jsRound
  rw [add_comm, Int.floor_add_int]
  norm_num

/-- Snapping an exact multiple of the (non-zero) grid step is the identity. -/
theorem snapToGrid_multiple (st : EngineState) (k : ℤ)
    (h : st.gridSpacing * st.scale ≠ 0) :
    st.snapToGrid (k * (st.gridSpacing * st.scale)) = k * (st.gridSpacing * st.scale) := by
  unfold EngineState.snapToGrid
  rw [mul_div_assoc, div_self h, mul_one, jsRound_intCast]

/-- Lower bound for `jsRound`. -/
theorem jsRound_ge (q : ℚ) : (jsRound q : ℚ) > q - 1 := by
  unfold jsRound
  have h := Int.sub_one_lt_floor (q + 1/2)
  push_cast at h ⊢
  linarith

/-- `jsRound` rounds within a half in each direction. -/
theorem jsRound_half_bounds (q : ℚ) :
    q - 1/2 < (jsRound q : ℚ) ∧ (jsRound q : ℚ) ≤ q + 1/2 := by
  unfold jsRound
  constructor
  · have h := Int.sub_one_lt_floor (q + 1/2)
    push_cast at h ⊢
    linarith
  · have h := Int.floor_le (q + 1/2)
    push_cast at h ⊢
    linarith

/-- Snapping moves a value by at most half a grid step. -/
theorem snapToGrid_bounds (st : EngineState)
    (h : 0 < st.gridSpacing * st.scale) (v : ℚ) :
    v - st.gridSpacing * st.scale / 2 < st.snapToGrid v ∧
    st.snapToGrid v ≤ v + st.gridSpacing * st.scale / 2 := by
  unfold EngineState.snapToGrid
  obtain ⟨h1, h2⟩ := jsRound_half_bounds (v / (st.gridSpacing * st.scale))
  have hne : st.gridSpacing * st.scale ≠ 0 := ne_of_gt h
  constructor
  · have := (mul_lt_mul_right h).mpr h1
    rw [sub_mul, div_mul_cancel₀ _ hne] at this
    linarith
  · have := (mul_le_mul_right h).mpr h2
    rw [add_mul, div_mul_cancel₀ _ hne] at this
    linarith

/-! ### Shared concrete example states -/

/-- Card A of the spec's copy/paste example: position (100, 100), minimum
size 100 × 50. -/
def cardA : Card := ⟨1, "Card 1", "", 100, 100, 100, 50⟩

/-- Card B of the spec's copy/paste example: position (400, 200). -/
def cardB : Card := ⟨2, "Card 2", "", 400, 200, 100, 50⟩

/-- The spec's copy/paste example state: cards A and B connected, both
selected, unit zoom, grid 50. -/
def exPaste : EngineState :=
  { scale := 1
    cardCount := 2
    cards := [cardA, cardB]
    connectors := [⟨1, 2⟩]
    connectingFrom := none
    selectedCards := [1, 2]
    clipboard := []
    gridSpacing := 50 }

/-! ### C6 — cascade delete -/

/-- C6: when deletion of the selected cards is confirmed, every connector
with a deleted endpoint is removed (and no other connector is), the
selection becomes empty, `connectingFrom` is reset when it referenced a
deleted card, and no card outside the selection is removed. -/
theorem C6_delete_cascades (st : EngineState) :
    ((deleteSelectedCards st true).selectedCards = []) ∧
    (∀ conn ∈ (deleteSelectedCards st true).connectors,
        conn.fromId ∉ st.selectedCards ∧ conn.toId ∉ st.selectedCards) ∧
    (∀ conn ∈ st.connectors, conn.fromId ∉ st.selectedCards →
        conn.toId ∉ st.selectedCards →
        conn ∈ (deleteSelectedCards st true).connectors) ∧
    (∀ cf, st.connectingFrom = some cf → cf ∈ st.selectedCards →
        (deleteSelectedCards st true).connectingFrom = none) ∧
    (∀ card ∈ st.cards, card.id ∉ st.selectedCards →
        card ∈ (deleteSelectedCards st true).cards) := by
  unfold deleteSelectedCards
  by_cases h : st.selectedCards = []
  · refine ⟨by simp [h], ?_, ?_, ?_, ?_⟩
    · intro conn _; simp [h]
    · intro conn hmem _ _; simpa [h] using hmem
    · intro cf hcf hmem; rw [h] at hmem; simp at hmem
    · intro card hmem _; simpa [h] using hmem
  · refine ⟨by simp [h], ?_, ?_, ?_, ?_⟩
    · intro conn hmem
      simp only [h, if_false, if_true, List.mem_filter, decide_eq_true_eq] at hmem
      exact hmem.2
    · intro conn hmem h1 h2
      simp only [h, if_false, if_true, List.mem_filter, decide_eq_true_eq]
      exact ⟨hmem, h1, h2⟩
    · intro cf hcf hmem
      simp [h, hcf, hmem]
    · intro card hmem hid
      simp only [h, if_false, if_true, List.mem_filter, decide_eq_true_eq]
      exact ⟨hmem, hid⟩

/-- State for the C6 witness: card 1 selected, cards 2 and 3 not; connectors
1–2 (touching the deleted card) and 2–3 (not touching it); `connectingFrom`
pointing at the deleted card. -/
def exDelete : EngineState :=
  { scale := 1
    cardCount := 3
    cards := [⟨1, "Card 1", "", 0, 0, 200, 100⟩,
              ⟨2, "Card 2", "", 300, 0, 200, 100⟩,
              ⟨3, "Card 3", "", 600, 0, 200, 100⟩]
    connectors := [⟨1, 2⟩, ⟨2, 3⟩]
    connectingFrom := some 1
    selectedCards := [1]
    clipboard := []
    gridSpacing := 50 }

/-- Witness for C6 at `exDelete`. -/
theorem C6_delete_cascades_witness :
    ((⟨2, 3⟩ : Connector) ∈ exDelete.connectors ∧
      (2 : Nat) ∉ exDelete.selectedCards ∧ (3 : Nat) ∉ exDelete.selectedCards ∧
      exDelete.connectingFrom = some 1 ∧ (1 : Nat) ∈ exDelete.selectedCards) ∧
    ((⟨2, 3⟩ : Connector) ∈ (deleteSelectedCards exDelete true).connectors ∧
      (deleteSelectedCards exDelete true).selectedCards = [] ∧
      (deleteSelectedCards exDelete true).connectingFrom = none) :=
  ⟨⟨by decide, by decide, by decide, by decide, by decide⟩,
   (C6_delete_cascades exDelete).2.2.1 ⟨2, 3⟩ (by decide) (by decide) (by decide),
   (C6_delete_cascades exDelete).1,
   (C6_delete_cascades exDelete).2.2.2.1 1 (by decide) (by decide)⟩

/-! ### C10 — connect-toggle frame effect -/

/-- C10: an Alt-modified click only touches the connector set and
`connectingFrom`: the selection, the card list (hence every card's geometry
and content) and the remaining engine state are unchanged; the Alt-modified
`mousedown` phase is a complete no-op. -/
theorem C10_connect_toggle_frame (st : EngineState) (ev : PointerEvent)
    (card : Card) (halt : ev.altKey = true) :
    ((onCardClick st ev card).selectedCards = st.selectedCards ∧
     (onCardClick st ev card).cards = st.cards ∧
     (onCardClick st ev card).scale = st.scale ∧
     (onCardClick st ev card).gridSpacing = st.gridSpacing ∧
     (onCardClick st ev card).cardCount = st.cardCount ∧
     (onCardClick st ev card).clipboard = st.clipboard) ∧
    onCardMouseDown st ev card = st := by
  constructor
  · unfold onCardClick
    by_cases hinp : ev.targetIsInput = false
    · simp only [halt, hinp, and_self, if_true, true_and]
      cases hcf : st.connectingFrom with
      | none => simp
      | some cf =>
        by_cases hc : cf = card.id
        · simp [hc]
        · simp only [hc, if_false]
          cases hidx : findIndex (betweenPred cf card.id) st.connectors with
          | none => simp
          | some i => simp
    · have : ev.targetIsInput = true := by
        revert hinp; cases ev.targetIsInput <;> simp
      simp [this]
  · unfold onCardMouseDown
    cases hinp : ev.targetIsInput with
    | true => simp
    | false => simp [halt]

/-- Event for the C10 witness: Alt held, not on an input field. -/
def evAlt : PointerEvent := ⟨0, 0, true, false, false, false⟩

/-- Witness for C10: Alt-click on card A of the example state. -/
theorem C10_connect_toggle_frame_witness :
    evAlt.altKey = true ∧
    (((onCardClick exPaste evAlt cardA).selectedCards = exPaste.selectedCards ∧
      (onCardClick exPaste evAlt cardA).cards = exPaste.cards ∧
      (onCardClick exPaste evAlt cardA).scale = exPaste.scale ∧
      (onCardClick exPaste evAlt cardA).gridSpacing = exPaste.gridSpacing ∧
      (onCardClick exPaste evAlt cardA).cardCount = exPaste.cardCount ∧
      (onCardClick exPaste evAlt cardA).clipboard = exPaste.clipboard) ∧
     onCardMouseDown exPaste evAlt cardA = exPaste) :=
  ⟨rfl, C10_connect_toggle_frame exPaste evAlt cardA rfl⟩

/-! ### Frame lemmas for the overlap-resolution passes -/

theorem afterPasteStep_frame (st : EngineState) (i : Nat) :
    (afterPasteStep st i).connectors = st.connectors ∧
    (afterPasteStep st i).selectedCards = st.selectedCards ∧
    (afterPasteStep st i).scale = st.scale ∧
    (afterPasteStep st i).gridSpacing = st.gridSpacing ∧
    (afterPasteStep st i).cardCount = st.cardCount ∧
    (afterPasteStep st i).connectingFrom = st.connectingFrom ∧
    (afterPasteStep st i).clipboard = st.clipboard ∧
    (afterPasteStep st i).cards.length = st.cards.length := by
  unfold afterPasteStep
  cases st.cards[i]? with
  | none => exact ⟨rfl, rfl, rfl, rfl, rfl, rfl, rfl, rfl⟩
  | some card => exact ⟨rfl, rfl, rfl, rfl, rfl, rfl, rfl, List.length_set ..⟩

theorem afterPaste_foldl_frame (l : List Nat) (st : EngineState) :
    (l.foldl afterPasteStep st).connectors = st.connectors ∧
    (l.foldl afterPasteStep st).selectedCards = st.selectedCards ∧
    (l.foldl afterPasteStep st).scale = st.scale ∧
    (l.foldl afterPasteStep st).gridSpacing = st.gridSpacing ∧
    (l.foldl afterPasteStep st).cardCount = st.cardCount ∧
    (l.foldl afterPasteStep st).connectingFrom = st.connectingFrom ∧
    (l.foldl afterPasteStep st).clipboard = st.clipboard ∧
    (l.foldl afterPasteStep st).cards.length = st.cards.length := by
  induction l generalizing st with
  | nil => exact ⟨rfl, rfl, rfl, rfl, rfl, rfl, rfl, rfl⟩
  | cons i t ih =>
    rw [List.foldl_cons]
    obtain ⟨h1, h2, h3, h4, h5, h6, h7, h8⟩ := ih (afterPasteStep st i)
    obtain ⟨g1, g2, g3, g4, g5, g6, g7, g8⟩ := afterPasteStep_frame st i
    exact ⟨h1.trans g1, h2.trans g2, h3.trans g3, h4.trans g4,
           h5.trans g5, h6.trans g6, h7.trans g7, h8.trans g8⟩

theorem preventOverlapsAfterPaste_frame (st : EngineState) :
    (preventOverlapsAfterPaste st).connectors = st.connectors ∧
    (preventOverlapsAfterPaste st).selectedCards = st.selectedCards ∧
    (preventOverlapsAfterPaste st).scale = st.scale ∧
    (preventOverlapsAfterPaste st).gridSpacing = st.gridSpacing ∧
    (preventOverlapsAfterPaste st).cardCount = st.cardCount ∧
    (preventOverlapsAfterPaste st).connectingFrom = st.connectingFrom ∧
    (preventOverlapsAfterPaste st).clipboard = st.clipboard ∧
    (preventOverlapsAfterPaste st).cards.length = st.cards.length :=
  afterPaste_foldl_frame _ st

theorem afterZoomStep_frame (st : EngineState) (i : Nat) :
    (afterZoomStep st i).connectors = st.connectors ∧
    (afterZoomStep st i).selectedCards = st.selectedCards ∧
    (afterZoomStep st i).scale = st.scale ∧
    (afterZoomStep st i).gridSpacing = st.gridSpacing ∧
    (afterZoomStep st i).cardCount = st.cardCount ∧
    (afterZoomStep st i).connectingFrom = st.connectingFrom ∧
    (afterZoomStep st i).clipboard = st.clipboard ∧
    (afterZoomStep st i).cards.length = st.cards.length := by
  unfold afterZoomStep
  cases st.cards[i]? with
  | none => exact ⟨rfl, rfl, rfl, rfl, rfl, rfl, rfl, rfl⟩
  | some card => exact ⟨rfl, rfl, rfl, rfl, rfl, rfl, rfl, List.length_set ..⟩

theorem afterZoom_foldl_frame (l : List Nat) (st : EngineState) :
    (l.foldl afterZoomStep st).connectors = st.connectors ∧
    (l.foldl afterZoomStep st).selectedCards = st.selectedCards ∧
    (l.foldl afterZoomStep st).scale = st.scale ∧
    (l.foldl afterZoomStep st).gridSpacing = st.gridSpacing ∧
    (l.foldl afterZoomStep st).cardCount = st.cardCount ∧
    (l.foldl afterZoomStep st).connectingFrom = st.connectingFrom ∧
    (l.foldl afterZoomStep st).clipboard = st.clipboard ∧
    (l.foldl afterZoomStep st).cards.length = st.cards.length := by
  induction l generalizing st with
  | nil => exact ⟨rfl, rfl, rfl, rfl, rfl, rfl, rfl, rfl⟩
  | cons i t ih =>
    rw [List.foldl_cons]
    obtain ⟨h1, h2, h3, h4, h5, h6, h7, h8⟩ := ih (afterZoomStep st i)
    obtain ⟨g1, g2, g3, g4, g5, g6, g7, g8⟩ := afterZoomStep_frame st i
    exact ⟨h1.trans g1, h2.trans g2, h3.trans g3, h4.trans g4,
           h5.trans g5, h6.trans g6, h7.trans g7, h8.trans g8⟩

/-! ### The first pass of `pasteCards` -/

/-- `selectCard` only touches the selection. -/
theorem selectCard_frame (st : EngineState) (n : Nat) :
    (selectCard st n).cardCount = st.cardCount ∧
    (selectCard st n).connectors = st.connectors ∧
    (selectCard st n).cards = st.cards ∧
    (selectCard st n).scale = st.scale ∧
    (selectCard st n).gridSpacing = st.gridSpacing ∧
    (selectCard st n).connectingFrom = st.connectingFrom ∧
    (selectCard st n).clipboard = st.clipboard := by
  unfold selectCard
  by_cases hc : st.connectingFrom = some n
  · simp [hc]
  · by_cases hm : n ∈ st.selectedCards <;> simp [hc, hm]

/-- Effect of one `pasteStep` on the counter, the connectors and the map. -/
theorem pasteStep_spec (s oX oY : ℚ) (acc : EngineState × List (String × Nat))
    (item : ClipEntry) :
    (pasteStep s oX oY acc item).1.connectors = acc.1.connectors ∧
    (pasteStep s oX oY acc item).1.cardCount = acc.1.cardCount + 1 ∧
    (pasteStep s oX oY acc item).2 = (item.title, acc.1.cardCount + 1) :: acc.2 := by
  unfold pasteStep
  refine ⟨?_, ?_, rfl⟩
  · exact (selectCard_frame _ _).2.1
  · exact (selectCard_frame _ _).1

/-- Weak characterisation of the card-creating pass of `pasteCards`:
connectors are untouched, the card counter advances by one per entry, and
every entry added to the title map carries a freshly assigned id. -/
theorem pasteFold_weak (items : List ClipEntry) (s oX oY : ℚ)
    (stA : EngineState) (mA : List (String × Nat)) :
    ((items.foldl (pasteStep s oX oY) (stA, mA)).1.connectors = stA.connectors) ∧
    ((items.foldl (pasteStep s oX oY) (stA, mA)).1.cardCount
        = stA.cardCount + items.length) ∧
    (∀ e ∈ (items.foldl (pasteStep s oX oY) (stA, mA)).2,
        e ∈ mA ∨ stA.cardCount < e.2) := by
  induction items generalizing stA mA with
  | nil => exact ⟨rfl, rfl, fun e he => Or.inl he⟩
  | cons item rest ih =>
    rw [List.foldl_cons]
    obtain ⟨s1, s2, s3⟩ := pasteStep_spec s oX oY (stA, mA) item
    dsimp only at s1 s2 s3
    have ih' := ih (pasteStep s oX oY (stA, mA) item).1
      (pasteStep s oX oY (stA, mA) item).2
    rw [Prod.mk.eta] at ih'
    obtain ⟨h1, h2, h3⟩ := ih'
    refine ⟨?_, ?_, ?_⟩
    · rw [h1, s1]
    · rw [h2, s2, List.length_cons]; omega
    · intro e he
      rcases h3 e he with hin | hgt
      · rw [s3] at hin
        rcases List.mem_cons.mp hin with heq | hin'
        · right; subst heq; simp
        · exact Or.inl hin'
      · rw [s2] at hgt; right; omega

/-! ### C9 — pasted connectors join only newly created cards -/

/-- C9: every connector present after `pasteCards` either pre-existed or
joins two distinct cards freshly created by that paste (ids above the old
counter); a copied connection whose endpoints do not both resolve in the
new-card title map is silently dropped, so a paste never wires a new card
to a pre-existing one. -/
theorem C9_paste_connects_only_new (st : EngineState) :
    ∀ conn ∈ (pasteCards st).connectors,
      conn ∈ st.connectors ∨
      (st.cardCount < conn.fromId ∧ st.cardCount < conn.toId ∧
       conn.fromId ≠ conn.toId) := by
  intro conn hmem
  unfold pasteCards at hmem
  by_cases hclip : st.clipboard = []
  · rw [if_pos hclip] at hmem; exact Or.inl hmem
  · rw [if_neg hclip] at hmem
    simp only at hmem
    rw [(preventOverlapsAfterPaste_frame _).1] at hmem
    simp only [List.mem_append] at hmem
    obtain ⟨h1, _, h3⟩ := pasteFold_weak st.clipboard st.scale
      (20 / st.scale) (20 / st.scale) (clearSelection st) []
    rcases hmem with hold | hnew
    · rw [h1] at hold
      exact Or.inl hold
    · right
      rw [List.mem_flatMap] at hnew
      obtain ⟨item, _, hconn⟩ := hnew
      rw [List.mem_filterMap] at hconn
      obtain ⟨c, _, hc⟩ := hconn
      unfold pasteConnOf at hc
      cases hF : (st.clipboard.foldl (pasteStep st.scale (20 / st.scale)
          (20 / st.scale)) (clearSelection st, [])).2.find?
          (fun e => e.1 == defaultTitle c.fromId) with
      | none => rw [hF] at hc; simp at hc
      | some eF =>
        cases hT : (st.clipboard.foldl (pasteStep st.scale (20 / st.scale)
            (20 / st.scale)) (clearSelection st, [])).2.find?
            (fun e => e.1 == defaultTitle c.toId) with
        | none => rw [hF, hT] at hc; simp at hc
        | some eT =>
          rw [hF, hT] at hc
          dsimp only at hc
          have hFm : eF ∈ (st.clipboard.foldl (pasteStep st.scale
              (20 / st.scale) (20 / st.scale)) (clearSelection st, [])).2 :=
            List.mem_of_find?_eq_some hF
          have hTm : eT ∈ (st.clipboard.foldl (pasteStep st.scale
              (20 / st.scale) (20 / st.scale)) (clearSelection st, [])).2 :=
            List.mem_of_find?_eq_some hT
          have hFv : st.cardCount < eF.2 := by
            rcases h3 eF hFm with h | h
            · simp at h
            · simpa [clearSelection] using h
          have hTv : st.cardCount < eT.2 := by
            rcases h3 eT hTm with h | h
            · simp at h
            · simpa [clearSelection] using h
          by_cases hne : eF.2 ≠ eT.2
          · rw [if_pos hne] at hc
            have hcEq : conn = ⟨eF.2, eT.2⟩ := (Option.some_inj.mp hc).symm
            rw [hcEq]
            exact ⟨hFv, hTv, hne⟩
          · rw [if_neg hne] at hc
            exact absurd hc (by simp)

/-- State for the C9 witness: the example state with the clipboard already
holding the two entries `copyCards` would produce, including a connection
entry (1, 9) whose second endpoint was not among the copied cards. -/
def exClip : EngineState :=
  { exPaste with clipboard :=
      [⟨100, 100, 100, 50, "Card 1", "", [⟨1, 2⟩, ⟨1, 9⟩]⟩,
       ⟨400, 200, 100, 50, "Card 2", "", [⟨1, 2⟩]⟩] }

/-- Witness for C9: the reconstructed connector 3–4 of a concrete paste. -/
theorem C9_paste_connects_only_new_witness :
    (⟨3, 4⟩ : Connector) ∈ (pasteCards exClip).connectors ∧
    ((⟨3, 4⟩ : Connector) ∈ exClip.connectors ∨
      (exClip.cardCount < 3 ∧ exClip.cardCount < 4 ∧ (3 : Nat) ≠ 4)) :=
  ⟨by decide, C9_paste_connects_only_new exClip ⟨3, 4⟩ (by decide)⟩

/-! ### C8 — selection exclusivity -/

/-- First card of the C8 scenario (selected and pending connect). -/
def cardS1 : Card := ⟨1, "Card 1", "", 0, 0, 200, 100⟩

/-- Second card of the C8 scenario (unselected). -/
def cardS2 : Card := ⟨2, "Card 2", "", 400, 200, 200, 100⟩

/-- Reachable state refuting C8: card 1 is selected and is also the pending
`connectingFrom` card (select card 1, then Alt-click it). -/
def exSelect : EngineState :=
  { scale := 1
    cardCount := 2
    cards := [cardS1, cardS2]
    connectors := []
    connectingFrom := some 1
    selectedCards := [1]
    clipboard := []
    gridSpacing := 50 }

/-- Plain (non-additive) pointer event in the interior of card 2. -/
def evPlain : PointerEvent := ⟨500, 250, false, false, false, false⟩

/-- C8 counterexample: a non-additive interior pointer-down on the
unselected card 2 leaves TWO cards selected (`clearSelection` keeps the
`connectingFrom` card 1), so the selection is not exactly the clicked
card. -/
theorem C8_counterexample :
    evPlain.altKey = false ∧ evPlain.ctrlKey = false ∧
    evPlain.shiftKey = false ∧ evPlain.targetIsInput = false ∧
    ¬ isResizingEdge exSelect cardS2 evPlain ∧
    cardS2.id ∉ exSelect.selectedCards ∧
    (onCardMouseDown exSelect evPlain cardS2).selectedCards = [1, 2] ∧
    (1 : Nat) ≠ cardS2.id := by
  refine ⟨rfl, rfl, rfl, rfl, ?_, by decide, ?_, by decide⟩
  · unfold isResizingEdge getCardRect
    norm_num [exSelect, cardS2, evPlain]
  · unfold onCardMouseDown
    rw [if_neg (by simp [evPlain]), if_neg (by simp [evPlain]),
        if_neg (by unfold isResizingEdge getCardRect;
                   norm_num [exSelect, cardS2, evPlain]),
        if_neg (by simp [evPlain]), if_neg (by decide)]
    decide

/-- C8 amended: if additionally the pending `connectingFrom` card (when
present) is neither the clicked card nor currently selected, a non-additive
pointer-down on the interior of an unselected card makes that card the sole
selection. -/
theorem C8_amended (st : EngineState) (ev : PointerEvent) (card : Card)
    (hinp : ev.targetIsInput = false) (halt : ev.altKey = false)
    (hctrl : ev.ctrlKey = false) (hshift : ev.shiftKey = false)
    (hedge : ¬ isResizingEdge st card ev)
    (hsel : card.id ∉ st.selectedCards)
    (hcf : ∀ d, st.connectingFrom = some d → d ≠ card.id ∧ d ∉ st.selectedCards) :
    (onCardMouseDown st ev card).selectedCards = [card.id] := by
  unfold onCardMouseDown
  rw [if_neg (by simp [hinp]), if_neg (by simp [halt]), if_neg hedge,
      if_neg (by simp [hctrl, hshift]), if_neg hsel]
  have hclear : (clearSelection st).selectedCards = [] := by
    unfold clearSelection
    simp only
    rw [List.filter_eq_nil_iff]
    intro cid hcid
    cases hc : st.connectingFrom with
    | none => simp
    | some d =>
      have := (hcf d hc).2
      simp only [decide_eq_true_eq, Option.some_inj]
      intro heq
      exact this (heq ▸ hcid)
  unfold selectCard
  have hcf2 : (clearSelection st).connectingFrom = st.connectingFrom := rfl
  rw [hcf2, hclear]
  have hne : ¬ st.connectingFrom = some card.id := by
    cases hc : st.connectingFrom with
    | none => simp
    | some d => simpa using fun heq => (hcf d hc).1 heq
  rw [if_neg hne, if_neg (by simp)]
  simp

/-- The C8 scenario with no pending connection. -/
def exSelect2 : EngineState := { exSelect with connectingFrom := none }

/-- Witness for the amended C8 at `exSelect2`. -/
theorem C8_amended_witness :
    (onCardMouseDown exSelect2 evPlain cardS2).selectedCards = [cardS2.id] :=
  C8_amended exSelect2 evPlain cardS2 rfl rfl rfl rfl
    (by unfold isResizingEdge getCardRect; norm_num [exSelect2, exSelect, cardS2, evPlain])
    (by decide) (by simp [exSelect2, exSelect])

/-! ### C3 — minimum card size -/

/-- Card for the C3 counterexample. -/
def cardR : Card := ⟨1, "Card 1", "", 0, 0, 200, 100⟩

/-- State for the C3 counterexample: unit zoom, grid spacing 80. -/
def exResize : EngineState :=
  { scale := 1
    cardCount := 1
    cards := [cardR]
    connectors := []
    connectingFrom := none
    selectedCards := [1]
    clipboard := []
    gridSpacing := 80 }

/-- C3 counterexample: dragging the right edge 90 px left clamps the width
to 110 (≥ 100), but the subsequent snap rounds it down to 80 — below the
100-px model-space minimum the claim asserts at all times. -/
theorem C3_counterexample :
    (handleResizeMove exResize .right cardR 0 0 (-90) 0).baseWidth = 80 ∧
    (80 : ℚ) < 100 := by
  constructor
  · unfold handleResizeMove EngineState.snapToGrid jsRound
    norm_num [exResize, cardR]
  · norm_num

/-- The snapped, clamped dimension update of `handleResize` stays strictly
above `m - gridSpacing * scale / 2` (in screen units), where `m` is the
clamp minimum. -/
theorem resize_snap_lower_bound (st : EngineState)
    (hs : 0 < st.scale) (hgs : 0 < st.gridSpacing * st.scale) (m w : ℚ) :
    m - st.gridSpacing * st.scale / 2 <
      st.snapToGrid (max (m / st.scale) w * st.scale) / st.scale * st.scale := by
  have hsne : st.scale ≠ 0 := ne_of_gt hs
  rw [div_mul_cancel₀ _ hsne]
  have hv : m ≤ max (m / st.scale) w * st.scale := by
    have h1 : m / st.scale ≤ max (m / st.scale) w := le_max_left _ _
    have h2 := (mul_le_mul_right hs).mpr h1
    rwa [div_mul_cancel₀ _ hsne] at h2
  have := (snapToGrid_bounds st hgs (max (m / st.scale) w * st.scale)).1
  linarith

/-- C3 amended: the 100×50 minimum does *not* hold at all times — clamping
happens before snapping, so a resize can land half a grid step below it.
What holds: `addNewCard` creates 200×100 cards; a resize move-sample leaves
untouched dimensions unchanged and puts every touched dimension strictly
above `minimum - gridSpacing * scale / 2` in screen units. -/
theorem C3_amended (st : EngineState) (dir : ResizeDir) (card : Card)
    (sx sy cx cy : ℚ) (hs : 0 < st.scale) (hg : 0 < st.gridSpacing) :
    (((handleResizeMove st dir card sx sy cx cy).baseWidth = card.baseWidth ∨
      100 - st.gridSpacing * st.scale / 2 <
        (handleResizeMove st dir card sx sy cx cy).baseWidth * st.scale) ∧
     ((handleResizeMove st dir card sx sy cx cy).baseHeight = card.baseHeight ∨
      50 - st.gridSpacing * st.scale / 2 <
        (handleResizeMove st dir card sx sy cx cy).baseHeight * st.scale)) ∧
    (∀ x y : ℚ, ∀ c ∈ (addNewCard st x y).cards,
      c ∈ st.cards ∨ (c.baseWidth = 200 ∧ c.baseHeight = 100)) := by
  have hgs : 0 < st.gridSpacing * st.scale := mul_pos hg hs
  constructor
  · cases dir <;> unfold handleResizeMove <;> dsimp only <;>
      first
        | exact ⟨Or.inl rfl, Or.inl rfl⟩
        | exact ⟨Or.inl rfl, Or.inr (resize_snap_lower_bound st hs hgs 50 _)⟩
        | exact ⟨Or.inr (resize_snap_lower_bound st hs hgs 100 _), Or.inl rfl⟩
        | exact ⟨Or.inr (resize_snap_lower_bound st hs hgs 100 _),
                 Or.inr (resize_snap_lower_bound st hs hgs 50 _)⟩
  · intro x y c hc
    unfold addNewCard at hc
    simp only [List.mem_append, List.mem_singleton] at hc
    rcases hc with h | h
    · exact Or.inl h
    · right; rw [h]; exact ⟨rfl, rfl⟩

/-- Witness for the amended C3 at the `exResize` scenario. -/
theorem C3_amended_witness :
    0 < exResize.scale ∧ 0 < exResize.gridSpacing ∧
    ((((handleResizeMove exResize .right cardR 0 0 (-90) 0).baseWidth = cardR.baseWidth ∨
       100 - exResize.gridSpacing * exResize.scale / 2 <
         (handleResizeMove exResize .right cardR 0 0 (-90) 0).baseWidth * exResize.scale) ∧
      ((handleResizeMove exResize .right cardR 0 0 (-90) 0).baseHeight = cardR.baseHeight ∨
       50 - exResize.gridSpacing * exResize.scale / 2 <
         (handleResizeMove exResize .right cardR 0 0 (-90) 0).baseHeight * exResize.scale)) ∧
     (∀ x y : ℚ, ∀ c ∈ (addNewCard exResize x y).cards,
       c ∈ exResize.cards ∨ (c.baseWidth = 200 ∧ c.baseHeight = 100))) :=
  ⟨by norm_num [exResize], by norm_num [exResize],
   C3_amended exResize .right cardR 0 0 (-90) 0
     (by norm_num [exResize]) (by norm_num [exResize])⟩

/-! ### C4 — grid alignment after committed gestures -/

/-- State for the C4 counterexample: zoom scale 2, grid spacing 50, so the
effective grid step is 100 screen pixels. -/
def exZoomed : EngineState :=
  { scale := 2
    cardCount := 1
    cards := [cardR]
    connectors := []
    connectingFrom := none
    selectedCards := [1]
    clipboard := []
    gridSpacing := 50 }

/-- C4 counterexample: a resize move-sample at scale 2 snaps the width to
`snapToGrid(width * scale) / scale`, a multiple of `gridSpacing` only — the
resulting width 50 is *not* a multiple of `gridSpacing * scale = 100`. -/
theorem C4_counterexample :
    (handleResizeMove exZoomed .right cardR 0 0 (-290) 0).baseWidth = 50 ∧
    ¬ ∃ k : ℤ, (50 : ℚ) = k * (exZoomed.gridSpacing * exZoomed.scale) := by
  constructor
  · unfold handleResizeMove EngineState.snapToGrid jsRound
    norm_num [exZoomed, cardR]
  · rintro ⟨k, hk⟩
    rw [show exZoomed.gridSpacing * exZoomed.scale = 100 by norm_num [exZoomed]] at hk
    have h1 : (2 * k : ℚ) = 1 := by linarith
    have h2 : (2 * k : ℤ) = 1 := by exact_mod_cast h1
    omega

/-- `snapToGrid(v) / scale` is an exact multiple of `gridSpacing`. -/
theorem snap_div_scale_multiple (st : EngineState) (hs : st.scale ≠ 0) (v : ℚ) :
    ∃ k : ℤ, st.snapToGrid v / st.scale = k * st.gridSpacing := by
  refine ⟨jsRound (v / (st.gridSpacing * st.scale)), ?_⟩
  unfold EngineState.snapToGrid
  field_simp
  ring

/-- C4 amended: what holds is — drag commit snaps each selected card's
position to an exact multiple of `gridSpacing * scale`; `preventOverlap`
always returns multiples of `gridSpacing * scale`; but a resize move-sample
produces widths/heights that are exact multiples of `gridSpacing` in base
units (`snapToGrid(d * scale) / scale`), which is *not* a multiple of
`gridSpacing * scale` when the scale differs from 1. -/
theorem C4_amended (st : EngineState) :
    (∀ card ∈ st.cards, card.id ∈ st.selectedCards →
      ∃ card' ∈ (dragCommit st).cards, card'.id = card.id ∧
        (∃ k : ℤ, card'.baseX = k * (st.gridSpacing * st.scale)) ∧
        (∃ k : ℤ, card'.baseY = k * (st.gridSpacing * st.scale))) ∧
    (∀ card px py,
      (∃ k : ℤ, (preventOverlap st card px py).1 = k * (st.gridSpacing * st.scale)) ∧
      (∃ k : ℤ, (preventOverlap st card px py).2 = k * (st.gridSpacing * st.scale))) ∧
    (st.scale ≠ 0 → ∀ dir card, ∀ sx sy cx cy : ℚ,
      ((handleResizeMove st dir card sx sy cx cy).baseWidth = card.baseWidth ∨
        ∃ k : ℤ, (handleResizeMove st dir card sx sy cx cy).baseWidth = k * st.gridSpacing) ∧
      ((handleResizeMove st dir card sx sy cx cy).baseHeight = card.baseHeight ∨
        ∃ k : ℤ, (handleResizeMove st dir card sx sy cx cy).baseHeight = k * st.gridSpacing)) := by
  refine ⟨?_, ?_, ?_⟩
  · intro card hmem hsel
    refine ⟨_, List.mem_map_of_mem _ hmem, ?_⟩
    dsimp only
    rw [if_pos hsel]
    exact ⟨rfl, snapToGrid_isMultiple st _, snapToGrid_isMultiple st _⟩
  · intro card px py
    exact ⟨snapToGrid_isMultiple st _, snapToGrid_isMultiple st _⟩
  · intro hs dir card sx sy cx cy
    cases dir <;> unfold handleResizeMove <;> dsimp only <;>
      first
        | exact ⟨Or.inl rfl, Or.inr (snap_div_scale_multiple st hs _)⟩
        | exact ⟨Or.inr (snap_div_scale_multiple st hs _), Or.inl rfl⟩
        | exact ⟨Or.inr (snap_div_scale_multiple st hs _),
                 Or.inr (snap_div_scale_multiple st hs _)⟩

/-- Witness for the amended C4 at the zoomed scenario. -/
theorem C4_amended_witness :
    (cardR ∈ exZoomed.cards ∧ cardR.id ∈ exZoomed.selectedCards ∧
      ∃ card' ∈ (dragCommit exZoomed).cards, card'.id = cardR.id ∧
        (∃ k : ℤ, card'.baseX = k * (exZoomed.gridSpacing * exZoomed.scale)) ∧
        (∃ k : ℤ, card'.baseY = k * (exZoomed.gridSpacing * exZoomed.scale))) ∧
    (exZoomed.scale ≠ 0 ∧
      (((handleResizeMove exZoomed .right cardR 0 0 (-290) 0).baseWidth = cardR.baseWidth ∨
        ∃ k : ℤ, (handleResizeMove exZoomed .right cardR 0 0 (-290) 0).baseWidth
          = k * exZoomed.gridSpacing) ∧
       ((handleResizeMove exZoomed .right cardR 0 0 (-290) 0).baseHeight = cardR.baseHeight ∨
        ∃ k : ℤ, (handleResizeMove exZoomed .right cardR 0 0 (-290) 0).baseHeight
          = k * exZoomed.gridSpacing))) :=
  ⟨⟨by decide, by decide,
    (C4_amended exZoomed).1 cardR (by decide) (by decide)⟩,
   ⟨by norm_num [exZoomed],
    (C4_amended exZoomed).2.2 (by norm_num [exZoomed]) .right cardR 0 0 (-290) 0⟩⟩

/-! ### C7 — connect-toggle involution -/

/-- The unordered endpoint pair of a connector, represented sorted. -/
def uPair (c : Connector) : Nat × Nat :=
  if c.fromId ≤ c.toId then (c.fromId, c.toId) else (c.toId, c.fromId)

theorem betweenPred_iff (cf cid : Nat) (c : Connector) :
    betweenPred cf cid c = true ↔ uPair c = uPair ⟨cf, cid⟩ := by
  unfold betweenPred uPair
  simp only [Bool.or_eq_true, Bool.and_eq_true, beq_iff_eq]
  by_cases h1 : c.fromId ≤ c.toId <;> by_cases h2 : cf ≤ cid <;>
    simp only [h1, h2, if_true, if_false, Prod.mk.injEq] <;> omega

theorem findIndex_cons (p : Connector → Bool) (c : Connector)
    (rest : List Connector) :
    findIndex p (c :: rest) =
      if p c then some 0 else (findIndex p rest).map (· + 1) := rfl

theorem findIndex_eq_none_iff (p : Connector → Bool) (l : List Connector) :
    findIndex p l = none ↔ ∀ c ∈ l, p c = false := by
  induction l with
  | nil => simp [findIndex]
  | cons c rest ih =>
    rw [findIndex_cons]
    cases hp : p c with
    | true => simp [hp]
    | false =>
      simp only [Bool.false_eq_true, if_false, Option.map_eq_none', ih]
      constructor
      · intro h d hd
        rcases List.mem_cons.mp hd with heq | hd'
        · rw [heq]; exact hp
        · exact h d hd'
      · intro h d hd
        exact h d (List.mem_cons_of_mem c hd)

theorem findIndex_some_spec (p : Connector → Bool) (l : List Connector) (i : Nat)
    (h : findIndex p l = some i) :
    ∃ hlt : i < l.length, p (l.get ⟨i, hlt⟩) = true := by
  induction l generalizing i with
  | nil => simp [findIndex] at h
  | cons c rest ih =>
    rw [findIndex_cons] at h
    cases hp : p c with
    | true =>
      rw [if_pos hp] at h
      have : i = 0 := by simpa using h.symm
      subst this
      exact ⟨Nat.succ_pos _, hp⟩
    | false =>
      rw [if_neg (by simp [hp])] at h
      rw [Option.map_eq_some'] at h
      obtain ⟨j, hj, hij⟩ := h
      obtain ⟨hlt, hpj⟩ := ih j hj
      subst hij
      exact ⟨Nat.succ_lt_succ hlt, hpj⟩

theorem findIndex_append_of_none (p : Connector → Bool) (l1 l2 : List Connector)
    (h : findIndex p l1 = none) :
    findIndex p (l1 ++ l2) = (findIndex p l2).map (· + l1.length) := by
  induction l1 with
  | nil =>
    simp only [List.nil_append, List.length_nil]
    cases findIndex p l2 <;> simp
  | cons c rest ih =>
    rw [findIndex_cons] at h
    rw [List.cons_append, findIndex_cons]
    cases hp : p c with
    | true => rw [if_pos hp] at h; exact absurd h (by simp)
    | false =>
      rw [if_neg (by simp [hp])] at h
      rw [if_neg (by simp [hp])]
      rw [Option.map_eq_none'] at h
      rw [ih h]
      cases findIndex p l2 <;> simp [Nat.add_assoc, Nat.add_comm 1]

theorem eraseIdx_append_length (l : List Connector) (x : Connector) :
    (l ++ [x]).eraseIdx l.length = l := by
  induction l with
  | nil => rfl
  | cons c rest ih =>
    show c :: (rest ++ [x]).eraseIdx rest.length = c :: rest
    rw [ih]

theorem findIndex_erase_none (p : Connector → Bool) (target : Nat × Nat)
    (l : List Connector) (i : Nat)
    (hfind : findIndex p l = some i)
    (hpair : l.Pairwise (fun c d => uPair c ≠ uPair d))
    (hp : ∀ c, p c = true ↔ uPair c = target) :
    findIndex p (l.eraseIdx i) = none := by
  induction l generalizing i with
  | nil => simp [findIndex] at hfind
  | cons c rest ih =>
    rw [List.pairwise_cons] at hpair
    rw [findIndex_cons] at hfind
    cases hpc : p c with
    | true =>
      rw [if_pos hpc] at hfind
      have : i = 0 := by simpa using hfind.symm
      subst this
      rw [show (c :: rest).eraseIdx 0 = rest from rfl, findIndex_eq_none_iff]
      intro d hd
      by_contra hcon
      have hd' : p d = true := by
        revert hcon; cases p d <;> simp
      have : uPair d = target := (hp d).mp hd'
      have hc : uPair c = target := (hp c).mp hpc
      exact hpair.1 d hd (hc.trans this.symm)
    | false =>
      rw [if_neg (by simp [hpc])] at hfind
      rw [Option.map_eq_some'] at hfind
      obtain ⟨j, hj, hij⟩ := hfind
      subst hij
      show findIndex p (c :: rest.eraseIdx j) = none
      rw [findIndex_cons, hpc]
      simp only [Bool.false_eq_true, if_false, ih j hj hpair.2]
      rfl

theorem perm_get_cons_eraseIdx (l : List Connector) (i : Nat) (h : i < l.length) :
    l.Perm (l.get ⟨i, h⟩ :: l.eraseIdx i) := by
  induction l generalizing i with
  | nil => simp at h
  | cons c rest ih =>
    cases i with
    | zero => simp
    | succ j =>
      have hj : j < rest.length := Nat.lt_of_succ_lt_succ h
      have step := ih j hj
      show (c :: rest).Perm (rest.get ⟨j, hj⟩ :: c :: rest.eraseIdx j)
      exact (step.cons c).trans (List.Perm.swap _ _ _)

/-- The two-click connect-toggle gesture for the pair (a, b), starting and
ending with no pending connection. -/
def connectToggle (st : EngineState) (ev : PointerEvent) (a b : Card) :
    EngineState :=
  onCardClick (onCardClick st ev a) ev b

theorem connectToggle_spec (st : EngineState) (ev : PointerEvent) (a b : Card)
    (halt : ev.altKey = true) (hinp : ev.targetIsInput = false)
    (hcf : st.connectingFrom = none) (hab : a.id ≠ b.id) :
    (connectToggle st ev a b).connectingFrom = none ∧
    (connectToggle st ev a b).connectors =
      (match findIndex (betweenPred a.id b.id) st.connectors with
       | some i => st.connectors.eraseIdx i
       | none => st.connectors ++ [⟨a.id, b.id⟩]) := by
  unfold connectToggle onCardClick
  rw [hcf]
  simp only [halt, hinp, and_self, if_true, true_and]
  rw [if_neg hab]
  cases hidx : findIndex (betweenPred a.id b.id) st.connectors with
  | none => exact ⟨rfl, rfl⟩
  | some i => exact ⟨rfl, rfl⟩

/-- C7: toggling the unordered pair {a, b} twice (with Alt held, no pending
connection, under the documented at-most-one-connector-per-pair invariant)
restores the connector set — as a multiset of unordered endpoint pairs —
exactly; and the connector lookup matches a stored connector in either
direction. -/
theorem C7_toggle_twice (st : EngineState) (ev : PointerEvent) (a b : Card)
    (halt : ev.altKey = true) (hinp : ev.targetIsInput = false)
    (hab : a.id ≠ b.id) (hcf : st.connectingFrom = none)
    (hpair : st.connectors.Pairwise (fun c d => uPair c ≠ uPair d)) :
    ((connectToggle (connectToggle st ev a b) ev a b).connectors.map uPair).Perm
        (st.connectors.map uPair) ∧
    (findIndex (betweenPred a.id b.id) st.connectors ≠ none ↔
      ∃ c ∈ st.connectors, (c.fromId = a.id ∧ c.toId = b.id) ∨
        (c.fromId = b.id ∧ c.toId = a.id)) := by
  constructor
  · obtain ⟨hcf1, hconn1⟩ := connectToggle_spec st ev a b halt hinp hcf hab
    obtain ⟨hcf2, hconn2⟩ := connectToggle_spec (connectToggle st ev a b) ev a b
      halt hinp hcf1 hab
    cases hidx : findIndex (betweenPred a.id b.id) st.connectors with
    | none =>
      have hx : betweenPred a.id b.id ⟨a.id, b.id⟩ = true := by
        unfold betweenPred; simp
      have hmid : (connectToggle st ev a b).connectors =
          st.connectors ++ [⟨a.id, b.id⟩] := by
        rw [hconn1, hidx]
      have happ : findIndex (betweenPred a.id b.id)
          (connectToggle st ev a b).connectors = some st.connectors.length := by
        rw [hmid, findIndex_append_of_none _ _ _ hidx]
        have hsingle : findIndex (betweenPred a.id b.id) [⟨a.id, b.id⟩] = some 0 := by
          rw [findIndex_cons, if_pos hx]
        rw [hsingle]
        simp
      have hfin : (connectToggle (connectToggle st ev a b) ev a b).connectors =
          st.connectors := by
        rw [hconn2, happ, hmid]
        exact eraseIdx_append_length _ _
      rw [hfin]
    | some i =>
      obtain ⟨hlt, hpi⟩ := findIndex_some_spec _ _ _ hidx
      have hmid : (connectToggle st ev a b).connectors =
          st.connectors.eraseIdx i := by
        rw [hconn1, hidx]
      have herase := findIndex_erase_none (betweenPred a.id b.id)
        (uPair ⟨a.id, b.id⟩) st.connectors i hidx hpair
        (fun c => betweenPred_iff a.id b.id c)
      have hfin : (connectToggle (connectToggle st ev a b) ev a b).connectors =
          st.connectors.eraseIdx i ++ [⟨a.id, b.id⟩] := by
        rw [hconn2, hmid, herase]
      rw [hfin]
      have hup : uPair (st.connectors.get ⟨i, hlt⟩) = uPair ⟨a.id, b.id⟩ :=
        (betweenPred_iff a.id b.id _).mp hpi
      have hperm1 : (st.connectors.map uPair).Perm
          (uPair (st.connectors.get ⟨i, hlt⟩) ::
            (st.connectors.eraseIdx i).map uPair) := by
        have hstep := (perm_get_cons_eraseIdx st.connectors i hlt).map uPair
        rw [List.map_cons] at hstep
        exact hstep
      have hperm2 : (((st.connectors.eraseIdx i) ++
            ([⟨a.id, b.id⟩] : List Connector)).map uPair).Perm
          (uPair ⟨a.id, b.id⟩ :: (st.connectors.eraseIdx i).map uPair) := by
        rw [List.map_append]
        exact List.perm_append_singleton _ _
      refine hperm2.trans ?_
      rw [← hup]
      exact hperm1.symm
  · rw [Ne, findIndex_eq_none_iff]
    push_neg
    constructor
    · rintro ⟨c, hc, hpc⟩
      refine ⟨c, hc, ?_⟩
      have : betweenPred a.id b.id c = true := by
        revert hpc; cases betweenPred a.id b.id c <;> simp
      unfold betweenPred at this
      simpa using this
    · rintro ⟨c, hc, hor⟩
      refine ⟨c, hc, ?_⟩
      have : betweenPred a.id b.id c = true := by
        unfold betweenPred; simpa using hor
      simp [this]

/-- State for the C7 witness: one connector stored in the direction 2 → 1,
to be toggled as the pair (1, 2). -/
def exToggle : EngineState :=
  { scale := 1
    cardCount := 2
    cards := [cardS1, cardS2]
    connectors := [⟨2, 1⟩]
    connectingFrom := none
    selectedCards := []
    clipboard := []
    gridSpacing := 50 }

/-- Witness for C7 at `exToggle`: toggling (1, 2) twice against the stored
reversed connector 2 → 1. -/
theorem C7_toggle_twice_witness :
    (evAlt.altKey = true ∧ evAlt.targetIsInput = false ∧
     cardS1.id ≠ cardS2.id ∧ exToggle.connectingFrom = none ∧
     exToggle.connectors.Pairwise (fun c d => uPair c ≠ uPair d)) ∧
    (((connectToggle (connectToggle exToggle evAlt cardS1 cardS2)
          evAlt cardS1 cardS2).connectors.map uPair).Perm
        (exToggle.connectors.map uPair) ∧
     (findIndex (betweenPred cardS1.id cardS2.id) exToggle.connectors ≠ none ↔
       ∃ c ∈ exToggle.connectors,
         (c.fromId = cardS1.id ∧ c.toId = cardS2.id) ∨
         (c.fromId = cardS2.id ∧ c.toId = cardS1.id))) :=
  ⟨⟨rfl, rfl, by decide, rfl, by decide⟩,
   C7_toggle_twice exToggle evAlt cardS1 cardS2 rfl rfl (by decide) rfl (by decide)⟩

/-! ### C2 — overlap resolution for an exactly-overlapping pair -/

/-- Moving card of the C2 counterexample (position not grid-aligned). -/
def cardO1 : Card := ⟨1, "Card 1", "", 0, 30, 200, 100⟩

/-- Obstacle card of the C2 counterexample, exactly coincident with
`cardO1`. -/
def cardO2 : Card := ⟨2, "Card 2", "", 0, 30, 200, 100⟩

/-- State for the C2 counterexample: two exactly-overlapping cards, neither
selected, unit zoom, grid 50. -/
def exOverlap : EngineState :=
  { scale := 1
    cardCount := 2
    cards := [cardO1, cardO2]
    connectors := []
    connectingFrom := none
    selectedCards := []
    clipboard := []
    gridSpacing := 50 }

/-- C2 counterexample: resolving card 1 at its own (non-grid-aligned)
position pushes it below card 2 to y = 180 and then snaps to y = 200 — the
result is snapped and overlap-free, but the clearance beyond card 2's
bottom edge is 70, not one grid step (50). -/
theorem C2_counterexample :
    preventOverlap exOverlap cardO1 cardO1.baseX cardO1.baseY = (0, 200) ∧
    (200 : ℚ) - (cardO2.baseY + cardO2.baseHeight) ≠
      exOverlap.gridSpacing * exOverlap.scale := by
  constructor
  · unfold preventOverlap overlapStep EngineState.snapToGrid jsRound
    norm_num [exOverlap, cardO1, cardO2, List.foldl_cons, List.foldl_nil]
  · norm_num [exOverlap, cardO2]

/-- C2 amended: for two exactly-coincident cards (the obstacle unselected)
whose geometry is grid-aligned, `preventOverlap` at the moving card's own
position returns a grid-snapped position with zero overlap and exactly one
`gridSpacing * scale` of clearance beyond the touching edge on the winning
axis (the x axis when width ≤ height, the y axis otherwise).  Without the
grid-alignment premise the final snap changes the clearance (see the
counterexample), though the result stays snapped and overlap-free. -/
theorem C2_amended (st : EngineState) (a b : Card)
    (hcards : st.cards = [a, b])
    (hids : a.id ≠ b.id)
    (hbsel : b.id ∉ st.selectedCards)
    (hs : 0 < st.scale) (hg : 0 < st.gridSpacing)
    (hx : a.baseX = b.baseX) (hy : a.baseY = b.baseY)
    (hw : a.baseWidth = b.baseWidth) (hh : a.baseHeight = b.baseHeight)
    (hwpos : 0 < b.baseWidth) (hhpos : 0 < b.baseHeight)
    (halignX : ∃ k : ℤ, b.baseX = k * (st.gridSpacing * st.scale))
    (halignY : ∃ k : ℤ, b.baseY = k * (st.gridSpacing * st.scale))
    (halignW : ∃ k : ℤ, b.baseWidth = k * (st.gridSpacing * st.scale))
    (halignH : ∃ k : ℤ, b.baseHeight = k * (st.gridSpacing * st.scale)) :
    (∃ k : ℤ, (preventOverlap st a a.baseX a.baseY).1
        = k * (st.gridSpacing * st.scale)) ∧
    (∃ k : ℤ, (preventOverlap st a a.baseX a.baseY).2
        = k * (st.gridSpacing * st.scale)) ∧
    ¬ ((preventOverlap st a a.baseX a.baseY).1 < b.baseX + b.baseWidth ∧
       b.baseX < (preventOverlap st a a.baseX a.baseY).1 + a.baseWidth ∧
       (preventOverlap st a a.baseX a.baseY).2 < b.baseY + b.baseHeight ∧
       b.baseY < (preventOverlap st a a.baseX a.baseY).2 + a.baseHeight) ∧
    ((b.baseWidth ≤ b.baseHeight →
       (preventOverlap st a a.baseX a.baseY).1 - (b.baseX + b.baseWidth)
          = st.gridSpacing * st.scale ∧
       (preventOverlap st a a.baseX a.baseY).2 = b.baseY) ∧
     (b.baseHeight < b.baseWidth →
       (preventOverlap st a a.baseX a.baseY).2 - (b.baseY + b.baseHeight)
          = st.gridSpacing * st.scale ∧
       (preventOverlap st a a.baseX a.baseY).1 = b.baseX)) := by
  have hsne : st.scale ≠ 0 := ne_of_gt hs
  have hgs : 0 < st.gridSpacing * st.scale := mul_pos hg hs
  have hgsne : st.gridSpacing * st.scale ≠ 0 := ne_of_gt hgs
  have hws : 0 < b.baseWidth * st.scale := mul_pos hwpos hs
  have hhs : 0 < b.baseHeight * st.scale := mul_pos hhpos hs
  obtain ⟨kx, hkx⟩ := halignX
  obtain ⟨ky, hky⟩ := halignY
  obtain ⟨kw, hkw⟩ := halignW
  obtain ⟨kh, hkh⟩ := halignH
  -- evaluate the resolver on the two-card list
  have hmain : preventOverlap st a a.baseX a.baseY =
      (if b.baseWidth ≤ b.baseHeight
       then (b.baseX + b.baseWidth + st.gridSpacing * st.scale, b.baseY)
       else (b.baseX, b.baseY + b.baseHeight + st.gridSpacing * st.scale)) := by
    unfold preventOverlap
    rw [hcards]
    simp only [List.foldl_cons, List.foldl_nil]
    unfold overlapStep
    rw [if_pos (Or.inl rfl)]
    rw [if_neg (by simp [Ne.symm hids, hbsel])]
    rw [hx, hy, hw, hh]
    rw [if_pos ?hover]
    case hover =>
      refine ⟨?_, ?_, ?_, ?_⟩ <;> nlinarith
    rw [show (b.baseX + b.baseWidth) * st.scale - b.baseX * st.scale
          = b.baseWidth * st.scale from by ring,
        show (b.baseY + b.baseHeight) * st.scale - b.baseY * st.scale
          = b.baseHeight * st.scale from by ring]
    dsimp only
    rw [min_self, min_self, abs_of_pos hws, abs_of_pos hhs]
    by_cases hcmp : b.baseWidth ≤ b.baseHeight
    · have hmin : min (b.baseWidth * st.scale) (b.baseHeight * st.scale)
          = b.baseWidth * st.scale :=
        min_eq_left (by nlinarith)
      rw [if_pos hmin, if_pos hcmp]
      have e1 : (b.baseX + b.baseWidth) * st.scale / st.scale
            + st.gridSpacing * st.scale
          = b.baseX + b.baseWidth + st.gridSpacing * st.scale := by
        rw [mul_div_assoc, div_self hsne, mul_one]
      rw [e1]
      have e2 : st.snapToGrid (b.baseX + b.baseWidth + st.gridSpacing * st.scale)
          = b.baseX + b.baseWidth + st.gridSpacing * st.scale := by
        have : b.baseX + b.baseWidth + st.gridSpacing * st.scale
            = ((kx + kw + 1 : ℤ) : ℚ) * (st.gridSpacing * st.scale) := by
          push_cast
          rw [hkx, hkw]; ring
        rw [this, snapToGrid_multiple st _ hgsne]
      have e3 : st.snapToGrid b.baseY = b.baseY := by
        conv in st.snapToGrid b.baseY => rw [hky]
        rw [snapToGrid_multiple st _ hgsne, ← hky]
      rw [e2, e3]
    · have hlt : b.baseHeight < b.baseWidth := lt_of_not_le hcmp
      have hmin : min (b.baseWidth * st.scale) (b.baseHeight * st.scale)
          = b.baseHeight * st.scale :=
        min_eq_right (by nlinarith)
      have hne1 : ¬ (min (b.baseWidth * st.scale) (b.baseHeight * st.scale)
          = b.baseWidth * st.scale) := by
        rw [hmin]
        intro hcon
        nlinarith
      rw [if_neg hne1, if_neg hne1, if_pos hmin, if_neg hcmp]
      have e1 : (b.baseY + b.baseHeight) * st.scale / st.scale
            + st.gridSpacing * st.scale
          = b.baseY + b.baseHeight + st.gridSpacing * st.scale := by
        rw [mul_div_assoc, div_self hsne, mul_one]
      rw [e1]
      have e2 : st.snapToGrid (b.baseY + b.baseHeight + st.gridSpacing * st.scale)
          = b.baseY + b.baseHeight + st.gridSpacing * st.scale := by
        have : b.baseY + b.baseHeight + st.gridSpacing * st.scale
            = ((ky + kh + 1 : ℤ) : ℚ) * (st.gridSpacing * st.scale) := by
          push_cast
          rw [hky, hkh]; ring
        rw [this, snapToGrid_multiple st _ hgsne]
      have e3 : st.snapToGrid b.baseX = b.baseX := by
        conv in st.snapToGrid b.baseX => rw [hkx]
        rw [snapToGrid_multiple st _ hgsne, ← hkx]
      rw [e2, e3]
  by_cases hcmp : b.baseWidth ≤ b.baseHeight
  · rw [hmain, if_pos hcmp]
    refine ⟨⟨kx + kw + 1, by push_cast; rw [hkx, hkw]; ring⟩,
            ⟨ky, hky⟩, ?_, ?_, ?_⟩
    · rintro ⟨h1, _, _, _⟩
      simp only at h1
      linarith
    · intro _
      constructor
      · simp only; ring
      · rfl
    · intro hlt
      exact absurd hcmp (not_le.mpr hlt)
  · have hlt : b.baseHeight < b.baseWidth := lt_of_not_le hcmp
    rw [hmain, if_neg hcmp]
    refine ⟨⟨kx, hkx⟩,
            ⟨ky + kh + 1, by push_cast; rw [hky, hkh]; ring⟩, ?_, ?_, ?_⟩
    · rintro ⟨_, _, h3, _⟩
      simp only at h3
      linarith
    · intro hle
      exact absurd hle hcmp
    · intro _
      constructor
      · simp only; ring
      · rfl

/-- Aligned exact-overlap pair for the C2 witness. -/
def cardP1 : Card := ⟨1, "Card 1", "", 0, 0, 200, 100⟩

/-- Second card of the C2 witness pair. -/
def cardP2 : Card := ⟨2, "Card 2", "", 0, 0, 200, 100⟩

/-- State for the C2 witness. -/
def exOverlapAligned : EngineState :=
  { scale := 1
    cardCount := 2
    cards := [cardP1, cardP2]
    connectors := []
    connectingFrom := none
    selectedCards := []
    clipboard := []
    gridSpacing := 50 }

/-- Witness for the amended C2 at `exOverlapAligned`. -/
theorem C2_amended_witness :
    (∃ k : ℤ, (preventOverlap exOverlapAligned cardP1 cardP1.baseX cardP1.baseY).1
        = k * (exOverlapAligned.gridSpacing * exOverlapAligned.scale)) ∧
    (∃ k : ℤ, (preventOverlap exOverlapAligned cardP1 cardP1.baseX cardP1.baseY).2
        = k * (exOverlapAligned.gridSpacing * exOverlapAligned.scale)) ∧
    ¬ ((preventOverlap exOverlapAligned cardP1 cardP1.baseX cardP1.baseY).1
          < cardP2.baseX + cardP2.baseWidth ∧
       cardP2.baseX < (preventOverlap exOverlapAligned cardP1 cardP1.baseX
          cardP1.baseY).1 + cardP1.baseWidth ∧
       (preventOverlap exOverlapAligned cardP1 cardP1.baseX cardP1.baseY).2
          < cardP2.baseY + cardP2.baseHeight ∧
       cardP2.baseY < (preventOverlap exOverlapAligned cardP1 cardP1.baseX
          cardP1.baseY).2 + cardP1.baseHeight) ∧
    ((cardP2.baseWidth ≤ cardP2.baseHeight →
       (preventOverlap exOverlapAligned cardP1 cardP1.baseX cardP1.baseY).1
            - (cardP2.baseX + cardP2.baseWidth)
          = exOverlapAligned.gridSpacing * exOverlapAligned.scale ∧
       (preventOverlap exOverlapAligned cardP1 cardP1.baseX cardP1.baseY).2
          = cardP2.baseY) ∧
     (cardP2.baseHeight < cardP2.baseWidth →
       (preventOverlap exOverlapAligned cardP1 cardP1.baseX cardP1.baseY).2
            - (cardP2.baseY + cardP2.baseHeight)
          = exOverlapAligned.gridSpacing * exOverlapAligned.scale ∧
       (preventOverlap exOverlapAligned cardP1 cardP1.baseX cardP1.baseY).1
          = cardP2.baseX)) :=
  C2_amended exOverlapAligned cardP1 cardP2 rfl (by decide) (by decide)
    (by norm_num [exOverlapAligned]) (by norm_num [exOverlapAligned])
    rfl rfl rfl rfl
    (by norm_num [cardP2]) (by norm_num [cardP2])
    ⟨0, by norm_num [cardP2, exOverlapAligned]⟩
    ⟨0, by norm_num [cardP2, exOverlapAligned]⟩
    ⟨4, by norm_num [cardP2, exOverlapAligned]⟩
    ⟨2, by norm_num [cardP2, exOverlapAligned]⟩

/-! ### C5 — zoom gating and effect -/

theorem set_getElem_self {α : Type} (l : List α) (i : Nat) (c : α)
    (h : l[i]? = some c) : l.set i c = l := by
  induction l generalizing i with
  | nil => simp at h
  | cons d t ih =>
    cases i with
    | zero =>
      have : d = c := by simpa using h
      rw [← this]
      rfl
    | succ j =>
      have hj : t[j]? = some c := by simpa using h
      show d :: t.set j c = d :: t
      rw [ih j hj]

/-- If a card is grid-snapped and overlaps no other (non-skipped) card,
`preventOverlap` at its own position is the identity. -/
theorem preventOverlap_fixed (st : EngineState) (card : Card)
    (hsx : st.snapToGrid card.baseX = card.baseX)
    (hsy : st.snapToGrid card.baseY = card.baseY)
    (hno : ∀ d ∈ st.cards, ¬(d.id = card.id ∨ d.id ∈ st.selectedCards) →
      ¬(card.baseX * st.scale < (d.baseX + d.baseWidth) * st.scale ∧
        (card.baseX + card.baseWidth) * st.scale > d.baseX * st.scale ∧
        card.baseY * st.scale < (d.baseY + d.baseHeight) * st.scale ∧
        (card.baseY + card.baseHeight) * st.scale > d.baseY * st.scale)) :
    preventOverlap st card card.baseX card.baseY = (card.baseX, card.baseY) := by
  unfold preventOverlap
  have hfold : ∀ l : List Card,
      (∀ d ∈ l, ¬(d.id = card.id ∨ d.id ∈ st.selectedCards) →
        ¬(card.baseX * st.scale < (d.baseX + d.baseWidth) * st.scale ∧
          (card.baseX + card.baseWidth) * st.scale > d.baseX * st.scale ∧
          card.baseY * st.scale < (d.baseY + d.baseHeight) * st.scale ∧
          (card.baseY + card.baseHeight) * st.scale > d.baseY * st.scale)) →
      l.foldl (overlapStep st card card.baseX card.baseY)
        (card.baseX, card.baseY) = (card.baseX, card.baseY) := by
    intro l hl
    induction l with
    | nil => rfl
    | cons d t ih =>
      rw [List.foldl_cons]
      have hstep : overlapStep st card card.baseX card.baseY
          (card.baseX, card.baseY) d = (card.baseX, card.baseY) := by
        unfold overlapStep
        by_cases hskip : d.id = card.id ∨ d.id ∈ st.selectedCards
        · rw [if_pos hskip]
        · rw [if_neg hskip, if_neg (hl d (List.mem_cons_self d t) hskip)]
      rw [hstep]
      exact ih (fun d' hd' => hl d' (List.mem_cons_of_mem d hd'))
  rw [hfold st.cards hno]
  dsimp only
  rw [hsx, hsy]

theorem afterZoomStep_id (st' : EngineState) (i : Nat)
    (hfix : ∀ c, st'.cards[i]? = some c →
        preventOverlap st' c c.baseX c.baseY = (c.baseX, c.baseY)) :
    afterZoomStep st' i = st' := by
  unfold afterZoomStep
  cases hget : st'.cards[i]? with
  | none => rfl
  | some c =>
    dsimp only
    rw [hfix c hget]
    dsimp only
    rw [show ({ c with baseX := c.baseX, baseY := c.baseY } : Card) = c from rfl]
    rw [set_getElem_self _ _ _ hget]

theorem preventOverlapsAfterZoom_id (st : EngineState)
    (h : ∀ i, afterZoomStep st i = st) :
    preventOverlapsAfterZoom st = st := by
  unfold preventOverlapsAfterZoom
  generalize List.range st.cards.length = l
  induction l with
  | nil => rfl
  | cons i t ih =>
    rw [List.foldl_cons, h i, ih]

/-- C5 amended: `zoom` is a no-op exactly when the proposed scale leaves
[0.5, 2]; when accepted it multiplies the scale and every card's geometry by
the multiplier *and re-runs overlap resolution with snapping*.  For a
grid-aligned, pairwise non-overlapping layout the resolution pass is the
identity and the claim's description is exact; otherwise the pass can move
cards further (see the counterexample). -/
theorem C5_amended (st : EngineState) (m : ℚ) :
    (¬ (1/2 ≤ st.scale * m ∧ st.scale * m ≤ 2) → zoom st m = st) ∧
    ((1/2 ≤ st.scale * m ∧ st.scale * m ≤ 2) → 0 < st.scale →
     0 < st.gridSpacing →
     (∀ c ∈ st.cards, (∃ k : ℤ, c.baseX = k * (st.gridSpacing * st.scale)) ∧
        (∃ k : ℤ, c.baseY = k * (st.gridSpacing * st.scale))) →
     (∀ c ∈ st.cards, ∀ d ∈ st.cards, c.id ≠ d.id →
        ¬(c.baseX < d.baseX + d.baseWidth ∧ d.baseX < c.baseX + c.baseWidth ∧
          c.baseY < d.baseY + d.baseHeight ∧
          d.baseY < c.baseY + c.baseHeight)) →
     zoom st m = { st with
        scale := st.scale * m
        cards := st.cards.map (fun card =>
          { card with
            baseX := card.baseX * m
            baseY := card.baseY * m
            baseWidth := card.baseWidth * m
            baseHeight := card.baseHeight * m }) }) := by
  constructor
  · intro h
    unfold zoom
    rw [if_neg h]
  · intro hcond hs hg halign hnover
    have hm : 0 < m := by nlinarith [hcond.1]
    have hq : 0 < m * (st.scale * m) := by positivity
    unfold zoom
    rw [if_pos hcond]
    apply preventOverlapsAfterZoom_id
    intro i
    apply afterZoomStep_id
    intro c hget
    have hcmem := List.getElem?_mem hget
    simp only at hcmem
    obtain ⟨c0, hc0mem, hc0eq⟩ := List.mem_map.mp hcmem
    obtain ⟨⟨kx, hkx⟩, ⟨ky, hky⟩⟩ := halign c0 hc0mem
    apply preventOverlap_fixed
    · show EngineState.snapToGrid _ c.baseX = c.baseX
      rw [← hc0eq]
      show EngineState.snapToGrid _ (c0.baseX * m) = c0.baseX * m
      have hval : c0.baseX * m
          = (kx : ℚ) * (st.gridSpacing * (st.scale * m)) := by
        rw [hkx]; ring
      unfold EngineState.snapToGrid
      simp only
      rw [hval, mul_div_assoc,
          div_self (by positivity : st.gridSpacing * (st.scale * m) ≠ 0),
          mul_one, jsRound_intCast]
    · show EngineState.snapToGrid _ c.baseY = c.baseY
      rw [← hc0eq]
      show EngineState.snapToGrid _ (c0.baseY * m) = c0.baseY * m
      have hval : c0.baseY * m
          = (ky : ℚ) * (st.gridSpacing * (st.scale * m)) := by
        rw [hky]; ring
      unfold EngineState.snapToGrid
      simp only
      rw [hval, mul_div_assoc,
          div_self (by positivity : st.gridSpacing * (st.scale * m) ≠ 0),
          mul_one, jsRound_intCast]
    · intro d' hd' hskip
      simp only at hd'
      obtain ⟨d0, hd0mem, hd0eq⟩ := List.mem_map.mp hd'
      have hdc : d0.id ≠ c0.id := by
        intro heq
        apply hskip
        left
        rw [← hd0eq, ← hc0eq]
        exact heq
      have hbase := hnover c0 hc0mem d0 hd0mem (Ne.symm hdc)
      rintro ⟨h1, h2, h3, h4⟩
      apply hbase
      rw [← hc0eq, ← hd0eq] at h1 h2 h3 h4
      simp only at h1 h2 h3 h4
      refine ⟨?_, ?_, ?_, ?_⟩
      · rw [show c0.baseX * m * (st.scale * m)
              = c0.baseX * (m * (st.scale * m)) from by ring,
            show (d0.baseX * m + d0.baseWidth * m) * (st.scale * m)
              = (d0.baseX + d0.baseWidth) * (m * (st.scale * m)) from by ring]
          at h1
        exact (mul_lt_mul_right hq).mp h1
      · rw [show (c0.baseX * m + c0.baseWidth * m) * (st.scale * m)
              = (c0.baseX + c0.baseWidth) * (m * (st.scale * m)) from by ring,
            show d0.baseX * m * (st.scale * m)
              = d0.baseX * (m * (st.scale * m)) from by ring] at h2
        exact (mul_lt_mul_right hq).mp h2
      · rw [show c0.baseY * m * (st.scale * m)
              = c0.baseY * (m * (st.scale * m)) from by ring,
            show (d0.baseY * m + d0.baseHeight * m) * (st.scale * m)
              = (d0.baseY + d0.baseHeight) * (m * (st.scale * m)) from by ring]
          at h3
        exact (mul_lt_mul_right hq).mp h3
      · rw [show (c0.baseY * m + c0.baseHeight * m) * (st.scale * m)
              = (c0.baseY + c0.baseHeight) * (m * (st.scale * m)) from by ring,
            show d0.baseY * m * (st.scale * m)
              = d0.baseY * (m * (st.scale * m)) from by ring] at h4
        exact (mul_lt_mul_right hq).mp h4

theorem preventOverlapsAfterZoom_frame (st : EngineState) :
    (preventOverlapsAfterZoom st).connectors = st.connectors ∧
    (preventOverlapsAfterZoom st).selectedCards = st.selectedCards ∧
    (preventOverlapsAfterZoom st).scale = st.scale ∧
    (preventOverlapsAfterZoom st).gridSpacing = st.gridSpacing ∧
    (preventOverlapsAfterZoom st).cardCount = st.cardCount ∧
    (preventOverlapsAfterZoom st).connectingFrom = st.connectingFrom ∧
    (preventOverlapsAfterZoom st).clipboard = st.clipboard ∧
    (preventOverlapsAfterZoom st).cards.length = st.cards.length :=
  afterZoom_foldl_frame _ st

/-- First card of the C5 counterexample pair. -/
def cardZ1 : Card := ⟨1, "Card 1", "", 0, 0, 200, 100⟩

/-- Second card of the C5 counterexample pair, exactly coincident. -/
def cardZ2 : Card := ⟨2, "Card 2", "", 0, 0, 200, 100⟩

/-- State for the C5 counterexample: two exactly-overlapping cards. -/
def exZoomPair : EngineState :=
  { scale := 1
    cardCount := 2
    cards := [cardZ1, cardZ2]
    connectors := []
    connectingFrom := none
    selectedCards := []
    clipboard := []
    gridSpacing := 50 }

/-- C5 counterexample: zooming the overlapping pair by 1.1 is accepted
(1.1 ∈ [0.5, 2]) and sets the scale, but the post-zoom overlap-resolution
pass moves the first card to y = 165, not y = 0 · 1.1 — so zoom does more
than multiply every card's coordinates by the multiplier. -/
theorem C5_counterexample :
    (1/2 ≤ exZoomPair.scale * (11/10) ∧ exZoomPair.scale * (11/10) ≤ 2) ∧
    (zoom exZoomPair (11/10)).scale = exZoomPair.scale * (11/10) ∧
    (zoom exZoomPair (11/10)).cards.map Card.baseY = [165, 0] ∧
    exZoomPair.cards.map (fun c => c.baseY * (11/10)) = [0, 0] ∧
    ([165, 0] : List ℚ) ≠ [0, 0] := by
  refine ⟨by norm_num [exZoomPair], ?_, ?_, ?_, by simp⟩
  · unfold zoom
    rw [if_pos (by norm_num [exZoomPair])]
    rw [(preventOverlapsAfterZoom_frame _).2.2.1]
  · unfold zoom
    rw [if_pos (by norm_num [exZoomPair])]
    unfold preventOverlapsAfterZoom
    norm_num [exZoomPair, cardZ1, cardZ2, afterZoomStep, preventOverlap,
      overlapStep, EngineState.snapToGrid, jsRound,
      show List.range 2 = [0, 1] from rfl, List.foldl_cons, List.foldl_nil]
  · norm_num [exZoomPair, cardZ1, cardZ2]

/-- First card of the C5 witness layout (aligned, non-overlapping). -/
def cardW1 : Card := ⟨1, "Card 1", "", 0, 0, 200, 100⟩

/-- Second card of the C5 witness layout. -/
def cardW2 : Card := ⟨2, "Card 2", "", 400, 200, 100, 50⟩

/-- State for the C5 witness: grid-aligned, pairwise non-overlapping. -/
def exZoomOk : EngineState :=
  { scale := 1
    cardCount := 2
    cards := [cardW1, cardW2]
    connectors := []
    connectingFrom := none
    selectedCards := []
    clipboard := []
    gridSpacing := 50 }

/-- Witness for the amended C5: the rejected multiplier 3 is a no-op, and
the accepted multiplier 1.1 rescales scale and geometry exactly. -/
theorem C5_amended_witness :
    (¬ (1/2 ≤ exZoomOk.scale * 3 ∧ exZoomOk.scale * 3 ≤ 2) ∧
      zoom exZoomOk 3 = exZoomOk) ∧
    ((1/2 ≤ exZoomOk.scale * (11/10) ∧ exZoomOk.scale * (11/10) ≤ 2) ∧
      zoom exZoomOk (11/10) = { exZoomOk with
        scale := exZoomOk.scale * (11/10)
        cards := exZoomOk.cards.map (fun card =>
          { card with
            baseX := card.baseX * (11/10)
            baseY := card.baseY * (11/10)
            baseWidth := card.baseWidth * (11/10)
            baseHeight := card.baseHeight * (11/10) }) }) :=
  ⟨⟨by norm_num [exZoomOk], (C5_amended exZoomOk 3).1 (by norm_num [exZoomOk])⟩,
   ⟨by norm_num [exZoomOk],
    (C5_amended exZoomOk (11/10)).2 (by norm_num [exZoomOk])
      (by norm_num [exZoomOk]) (by norm_num [exZoomOk])
      (by
        intro c hc
        simp only [exZoomOk, List.mem_cons, List.mem_singleton] at hc
        rcases hc with h | h | h
        · subst h
          exact ⟨⟨0, by norm_num [cardW1, exZoomOk]⟩,
                 ⟨0, by norm_num [cardW1, exZoomOk]⟩⟩
        · subst h
          exact ⟨⟨8, by norm_num [cardW2, exZoomOk]⟩,
                 ⟨4, by norm_num [cardW2, exZoomOk]⟩⟩
        · exact absurd h (by simp))
      (by
        intro c hc d hd hne
        simp only [exZoomOk, List.mem_cons, List.mem_singleton] at hc hd
        rcases hc with h | h | h <;> rcases hd with h2 | h2 | h2 <;>
          first
            | (exact absurd h (by simp))
            | (exact absurd h2 (by simp))
            | (subst h; subst h2;
               first
                 | (exact absurd rfl hne)
                 | (rintro ⟨g1, g2, g3, g4⟩;
                    norm_num [cardW1, cardW2] at g1 g2 g3 g4)))⟩⟩

/-! ### C1 — copy/paste round trip -/

/-- C1 counterexample: in the spec's own example (cards A and B connected,
both copied), the connector between them is recorded in *both* cards'
clipboard entries and reconstructed once per entry, so the paste creates
two connectors 3–4: the final connector list has 3 elements, not the
claimed 1 + M = 2. -/
theorem C1_counterexample :
    exPaste.selectedCards.length = 2 ∧
    (exPaste.connectors.filter (fun conn =>
        conn.fromId ∈ exPaste.selectedCards ∧
        conn.toId ∈ exPaste.selectedCards)).length = 1 ∧
    (pasteCards (copyCards exPaste)).connectors = [⟨1, 2⟩, ⟨3, 4⟩, ⟨3, 4⟩] ∧
    (pasteCards (copyCards exPaste)).connectors.length ≠
      exPaste.connectors.length + 1 := by
  refine ⟨by decide, by decide, ?_, ?_⟩
  · decide
  · decide

/-! ### Generic list helpers for the C1 analysis -/

theorem take_set_of_le {α : Type} (l : List α) (i : Nat) (c : α) (n : Nat)
    (h : n ≤ i) : (l.set i c).take n = l.take n := by
  induction l generalizing i n with
  | nil => simp
  | cons d t ih =>
    cases i with
    | zero =>
      have : n = 0 := Nat.le_zero.mp h
      subst this
      rfl
    | succ j =>
      cases n with
      | zero => rfl
      | succ m =>
        show d :: (t.set j c).take m = d :: t.take m
        rw [ih j m (Nat.le_of_succ_le_succ h)]

theorem sum_map_add (sel : List Nat) (f g : Nat → Nat) :
    (sel.map (fun x => f x + g x)).sum = (sel.map f).sum + (sel.map g).sum := by
  induction sel with
  | nil => rfl
  | cons x t ih =>
    simp only [List.map_cons, List.sum_cons, ih]
    omega

theorem sum_map_indicator (sel : List Nat) (p : Nat → Bool) :
    (sel.map (fun x => if p x then 1 else 0)).sum = sel.countP p := by
  induction sel with
  | nil => rfl
  | cons x t ih =>
    simp only [List.map_cons, List.sum_cons, List.countP_cons, ih]
    by_cases h : p x
    · simp [h]
      omega
    · simp [h]

theorem countP_or_not_mem (l : List Nat) (a b : Nat)
    (ha : a ∉ l) (hb : b ∉ l) :
    l.countP (fun cid => a == cid || b == cid) = 0 := by
  rw [List.countP_eq_zero]
  intro x hx
  simp only [Bool.or_eq_true, beq_iff_eq, not_or]
  exact ⟨fun h => ha (h ▸ hx), fun h => hb (h ▸ hx)⟩

theorem countP_or_one_mem (l : List Nat) (a b : Nat) (hnd : l.Nodup)
    (ha : a ∉ l) (hb : b ∈ l) :
    l.countP (fun cid => a == cid || b == cid) = 1 := by
  induction l with
  | nil => simp at hb
  | cons x t ih =>
    rw [List.nodup_cons] at hnd
    rw [List.countP_cons]
    rcases List.mem_cons.mp hb with heq | hbt
    · subst heq
      have hat : a ∉ t := fun h => ha (List.mem_cons_of_mem _ h)
      rw [countP_or_not_mem t a b hat hnd.1]
      simp
    · have hxb : x ≠ b := fun h => hnd.1 (h ▸ hbt)
      have hxa : a ≠ x := fun h => ha (h ▸ List.mem_cons_self x t)
      rw [ih hnd.2 (fun h => ha (List.mem_cons_of_mem _ h)) hbt]
      have : (a == x || b == x) = false := by
        simp [hxa, Ne.symm hxb]
      rw [this]
      simp

theorem countP_or_two_mem (l : List Nat) (a b : Nat) (hnd : l.Nodup)
    (ha : a ∈ l) (hb : b ∈ l) (hab : a ≠ b) :
    l.countP (fun cid => a == cid || b == cid) = 2 := by
  induction l with
  | nil => simp at ha
  | cons x t ih =>
    rw [List.nodup_cons] at hnd
    rw [List.countP_cons]
    rcases List.mem_cons.mp ha with heqa | hat
    · subst heqa
      have hbt : b ∈ t := by
        rcases List.mem_cons.mp hb with heq | h
        · exact absurd heq.symm hab
        · exact h
      rw [countP_or_one_mem t a b hnd.2 hnd.1 hbt]
      simp
    · rcases List.mem_cons.mp hb with heqb | hbt
      · subst heqb
        have h1 : b ∉ t := hnd.1
        rw [show (fun cid => a == cid || b == cid) = (fun cid => b == cid || a == cid)
            from funext (fun cid => Bool.or_comm _ _)]
        rw [countP_or_one_mem t b a hnd.2 h1 hat]
        simp
      · have hxa : a ≠ x := fun h => hnd.1 (h ▸ hat)
        have hxb : b ≠ x := fun h => hnd.1 (h ▸ hbt)
        rw [ih hnd.2 hat hbt]
        have : (a == x || b == x) = false := by simp [hxa, hxb]
        rw [this]
        simp

/-- Unique-key lookup in an association list. -/
theorem find?_assoc_unique (assoc : List (String × Nat)) (k : String) (v : Nat)
    (hmem : (k, v) ∈ assoc) (hnd : (assoc.map Prod.fst).Nodup) :
    assoc.find? (fun e => e.1 == k) = some (k, v) := by
  induction assoc with
  | nil => simp at hmem
  | cons e t ih =>
    rw [List.map_cons, List.nodup_cons] at hnd
    by_cases hk : e.1 = k
    · have hev : e = (k, v) := by
        rcases List.mem_cons.mp hmem with heq | hmemt
        · exact heq.symm
        · exact absurd (hk ▸ (List.mem_map_of_mem Prod.fst hmemt : (k, v).1 ∈ t.map Prod.fst))
            hnd.1
      rw [hev]
      rw [List.find?_cons_of_pos _ (by simp)]
    · rw [List.find?_cons_of_neg _ (by simp [hk])]
      have hmemt : (k, v) ∈ t := by
        rcases List.mem_cons.mp hmem with heq | hmemt
        · exact absurd (by rw [heq] : e.1 = (k, v).1) hk
        · exact hmemt
      exact ih hmemt hnd.2

/-! ### Shapes produced by the first pass of `pasteCards` -/

/-- The card created for one clipboard entry with the id `c0 + 1`. -/
def pastedCard (s oX oY : ℚ) (c0 : Nat) (item : ClipEntry) : Card :=
  { id := c0 + 1
    title := item.title
    inputValue := item.inputValue
    baseX := (item.baseX + oX) * s
    baseY := (item.baseY + oY) * s
    baseWidth := item.baseWidth * s
    baseHeight := item.baseHeight * s }

/-- The cards created by the first pass of `pasteCards`, in clipboard
order, with ids counting up from `c0 + 1`. -/
def newCardsFrom (s oX oY : ℚ) : Nat → List ClipEntry → List Card
  | _, [] => []
  | c0, item :: rest =>
    pastedCard s oX oY c0 item :: newCardsFrom s oX oY (c0 + 1) rest

/-- The ids assigned by the first pass: `c0+1, …, c0+n`. -/
def newIdsFrom : Nat → Nat → List Nat
  | _, 0 => []
  | c0, n + 1 => (c0 + 1) :: newIdsFrom (c0 + 1) n

/-- The title-keyed map entries built by the first pass (in clipboard
order; the stored map is this list reversed). -/
def mapPairs : Nat → List ClipEntry → List (String × Nat)
  | _, [] => []
  | c0, item :: rest => (item.title, c0 + 1) :: mapPairs (c0 + 1) rest

theorem newCardsFrom_length (s oX oY : ℚ) (c0 : Nat) (items : List ClipEntry) :
    (newCardsFrom s oX oY c0 items).length = items.length := by
  induction items generalizing c0 with
  | nil => rfl
  | cons item rest ih => simp [newCardsFrom, ih]

theorem newCardsFrom_ids (s oX oY : ℚ) (c0 : Nat) (items : List ClipEntry) :
    ∀ c ∈ newCardsFrom s oX oY c0 items, c0 < c.id ∧ c.id ≤ c0 + items.length := by
  induction items generalizing c0 with
  | nil => intro c hc; simp [newCardsFrom] at hc
  | cons item rest ih =>
    intro c hc
    rcases List.mem_cons.mp hc with heq | hct
    · subst heq; simp [pastedCard]
    · have := ih (c0 + 1) c hct
      simp only [List.length_cons]
      omega

theorem mapPairs_keys (c0 : Nat) (items : List ClipEntry) :
    (mapPairs c0 items).map Prod.fst = items.map ClipEntry.title := by
  induction items generalizing c0 with
  | nil => rfl
  | cons item rest ih => simp [mapPairs, ih]

theorem mapPairs_values (c0 : Nat) (items : List ClipEntry) :
    ∀ e ∈ mapPairs c0 items, c0 < e.2 ∧ e.2 ≤ c0 + items.length := by
  induction items generalizing c0 with
  | nil => intro e he; simp [mapPairs] at he
  | cons item rest ih =>
    intro e he
    rcases List.mem_cons.mp he with heq | het
    · subst heq; simp
    · have := ih (c0 + 1) e het
      simp only [List.length_cons]
      omega

theorem mapPairs_values_distinct (c0 : Nat) (items : List ClipEntry) :
    (mapPairs c0 items).Pairwise (fun e1 e2 => e1.2 ≠ e2.2) := by
  induction items generalizing c0 with
  | nil => exact List.Pairwise.nil
  | cons item rest ih =>
    rw [show mapPairs c0 (item :: rest)
        = (item.title, c0 + 1) :: mapPairs (c0 + 1) rest from rfl]
    rw [List.pairwise_cons]
    refine ⟨?_, ih (c0 + 1)⟩
    intro e he
    have := mapPairs_values (c0 + 1) rest e he
    simp only
    omega

/-- Full effect of one `pasteStep` when no connection is pending and all
selected ids are at most the counter. -/
theorem pasteStep_full (s oX oY : ℚ) (stA : EngineState)
    (mA : List (String × Nat)) (item : ClipEntry)
    (hcf : stA.connectingFrom = none)
    (hselb : ∀ x ∈ stA.selectedCards, x ≤ stA.cardCount) :
    (pasteStep s oX oY (stA, mA) item).1 =
      { stA with
        cardCount := stA.cardCount + 1
        cards := stA.cards ++ [pastedCard s oX oY stA.cardCount item]
        selectedCards := stA.selectedCards ++ [stA.cardCount + 1] } ∧
    (pasteStep s oX oY (stA, mA) item).2
      = (item.title, stA.cardCount + 1) :: mA := by
  refine ⟨?_, rfl⟩
  unfold pasteStep selectCard
  dsimp only
  rw [if_neg (by simp [hcf])]
  rw [if_neg (fun h => absurd (hselb _ h) (by omega))]
  rfl

/-- Full characterisation of the first pass of `pasteCards`. -/
theorem pasteFold_full (items : List ClipEntry) (s oX oY : ℚ)
    (stA : EngineState) (mA : List (String × Nat))
    (hcf : stA.connectingFrom = none)
    (hselb : ∀ x ∈ stA.selectedCards, x ≤ stA.cardCount) :
    (items.foldl (pasteStep s oX oY) (stA, mA)).1.cards
        = stA.cards ++ newCardsFrom s oX oY stA.cardCount items ∧
    (items.foldl (pasteStep s oX oY) (stA, mA)).1.selectedCards
        = stA.selectedCards ++ newIdsFrom stA.cardCount items.length ∧
    (items.foldl (pasteStep s oX oY) (stA, mA)).1.connectingFrom = none ∧
    (items.foldl (pasteStep s oX oY) (stA, mA)).1.scale = stA.scale ∧
    (items.foldl (pasteStep s oX oY) (stA, mA)).1.gridSpacing = stA.gridSpacing ∧
    (items.foldl (pasteStep s oX oY) (stA, mA)).1.clipboard = stA.clipboard ∧
    (items.foldl (pasteStep s oX oY) (stA, mA)).2
        = (mapPairs stA.cardCount items).reverse ++ mA := by
  induction items generalizing stA mA with
  | nil =>
    refine ⟨by simp [newCardsFrom], by simp [newIdsFrom], hcf, rfl, rfl, rfl,
      by simp [mapPairs]⟩
  | cons item rest ih =>
    rw [List.foldl_cons]
    obtain ⟨hst, hmap⟩ := pasteStep_full s oX oY stA mA item hcf hselb
    have ihcf : (pasteStep s oX oY (stA, mA) item).1.connectingFrom = none := by
      rw [hst]; exact hcf
    have ihselb : ∀ x ∈ (pasteStep s oX oY (stA, mA) item).1.selectedCards,
        x ≤ (pasteStep s oX oY (stA, mA) item).1.cardCount := by
      rw [hst]
      intro x hx
      simp only [List.mem_append, List.mem_singleton] at hx
      rcases hx with h | h
      · have := hselb x h
        simp only
        omega
      · subst h; simp
    have ih' := ih (pasteStep s oX oY (stA, mA) item).1
      (pasteStep s oX oY (stA, mA) item).2
    rw [Prod.mk.eta] at ih'
    obtain ⟨i1, i2, i3, i4, i5, i6, i7⟩ := ih' ihcf ihselb
    rw [hst] at i1 i2 i4 i5 i6
    rw [hmap] at i7
    simp only at i1 i2 i4 i5 i6
    refine ⟨?_, ?_, i3, i4, i5, i6, ?_⟩
    · rw [i1, List.append_assoc]
      rfl
    · rw [i2, List.append_assoc]
      rfl
    · rw [i7, hst]
      simp only
      rw [show mapPairs stA.cardCount (item :: rest)
            = (item.title, stA.cardCount + 1) :: mapPairs (stA.cardCount + 1) rest
          from rfl]
      rw [List.reverse_cons, List.append_assoc]
      rfl

/-- Effect of `copyCards` on a nonempty selection whose cards carry their
default titles: the clipboard gets one entry per selected card, in order,
with the card's title and the endpoint-id pairs of the connectors touching
it; everything else is unchanged. -/
theorem copyCards_spec (st : EngineState)
    (hsel : st.selectedCards ≠ [])
    (htitles : ∀ cid ∈ st.selectedCards,
      ((st.cards.find? (fun c => c.id == cid)).map Card.title)
        = some (defaultTitle cid)) :
    List.Forall₂ (fun cid (e : ClipEntry) =>
        e.title = defaultTitle cid ∧
        e.connections = (st.connectors.filter (fun c =>
          c.fromId == cid || c.toId == cid)).map (fun c => ⟨c.fromId, c.toId⟩))
      st.selectedCards (copyCards st).clipboard ∧
    (copyCards st).cards = st.cards ∧
    (copyCards st).connectors = st.connectors ∧
    (copyCards st).selectedCards = st.selectedCards ∧
    (copyCards st).connectingFrom = st.connectingFrom ∧
    (copyCards st).scale = st.scale ∧
    (copyCards st).gridSpacing = st.gridSpacing ∧
    (copyCards st).cardCount = st.cardCount := by
  unfold copyCards
  rw [if_neg hsel]
  refine ⟨?_, rfl, rfl, rfl, rfl, rfl, rfl, rfl⟩
  simp only
  have hgen : ∀ l : List Nat,
      (∀ cid ∈ l, ((st.cards.find? (fun c => c.id == cid)).map Card.title)
        = some (defaultTitle cid)) →
      List.Forall₂ (fun cid (e : ClipEntry) =>
        e.title = defaultTitle cid ∧
        e.connections = (st.connectors.filter (fun c =>
          c.fromId == cid || c.toId == cid)).map (fun c => ⟨c.fromId, c.toId⟩))
        l (l.filterMap (fun cid =>
          (st.cards.find? (fun c => c.id == cid)).map (fun card =>
            { baseX := card.baseX / st.scale
              baseY := card.baseY / st.scale
              baseWidth := card.baseWidth / st.scale
              baseHeight := card.baseHeight / st.scale
              title := card.title
              inputValue := card.inputValue
              connections := (st.connectors.filter (fun c =>
                  c.fromId == cid || c.toId == cid)).map (fun c =>
                ⟨c.fromId, c.toId⟩) }))) := by
    intro l hl
    induction l with
    | nil => exact List.Forall₂.nil
    | cons cid t iht =>
      have hc := hl cid (List.mem_cons_self cid t)
      rw [Option.map_eq_some'] at hc
      obtain ⟨card, hfind, htitle⟩ := hc
      rw [List.filterMap_cons, hfind]
      dsimp only [Option.map_some']
      exact List.Forall₂.cons ⟨htitle, rfl⟩
        (iht (fun c hcm => hl c (List.mem_cons_of_mem cid hcm)))
  exact hgen st.selectedCards htitles

/-- The clipboard titles of `copyCards` are the default titles of the
selected ids, in order. -/
theorem clip_titles_eq (sel : List Nat) (clip : List ClipEntry)
    (rel : Nat → ClipEntry → Prop)
    (h : List.Forall₂ rel sel clip)
    (hrel : ∀ cid e, rel cid e → e.title = defaultTitle cid) :
    clip.map ClipEntry.title = sel.map defaultTitle := by
  induction h with
  | nil => rfl
  | cons h1 _ ih => simp [hrel _ _ h1, ih]

/-- Successful lookup in the (reversed) title map for a selected id whose
default title occurs among the keys exactly once. -/
theorem cmap_lookup_some (sel : List Nat) (clip : List ClipEntry) (c0 : Nat)
    (hkeys : (mapPairs c0 clip).map Prod.fst = sel.map defaultTitle)
    (hnd : (sel.map defaultTitle).Nodup) (u : Nat) (hu : u ∈ sel) :
    ∃ v, ((mapPairs c0 clip).reverse.find? (fun e => e.1 == defaultTitle u))
        = some (defaultTitle u, v) ∧ c0 < v ∧ v ≤ c0 + clip.length := by
  have hkmem : defaultTitle u ∈ (mapPairs c0 clip).map Prod.fst := by
    rw [hkeys]
    exact List.mem_map_of_mem defaultTitle hu
  rw [List.mem_map] at hkmem
  obtain ⟨e, he, heq⟩ := hkmem
  have hever : (defaultTitle u, e.2) ∈ (mapPairs c0 clip).reverse := by
    rw [List.mem_reverse]
    have : e = (defaultTitle u, e.2) := by
      rw [Prod.ext_iff]
      exact ⟨heq, rfl⟩
    exact this ▸ he
  have hndrev : ((mapPairs c0 clip).reverse.map Prod.fst).Nodup := by
    rw [List.map_reverse, List.nodup_reverse, hkeys]
    exact hnd
  refine ⟨e.2, find?_assoc_unique _ _ _ hever hndrev, ?_⟩
  have := mapPairs_values c0 clip e he
  exact this

/-- Failed lookup in the title map for a key outside the selected titles. -/
theorem cmap_lookup_none (sel : List Nat) (clip : List ClipEntry) (c0 : Nat)
    (hkeys : (mapPairs c0 clip).map Prod.fst = sel.map defaultTitle)
    (k : String) (hk : k ∉ sel.map defaultTitle) :
    ((mapPairs c0 clip).reverse.find? (fun e => e.1 == k)) = none := by
  rw [List.find?_eq_none]
  intro e he
  rw [List.mem_reverse] at he
  simp only [beq_iff_eq]
  intro heq
  apply hk
  rw [← hkeys]
  exact heq ▸ List.mem_map_of_mem Prod.fst he

/-- Lookups at two distinct keys return entries with distinct new-card
ids. -/
theorem cmap_values_distinct (clip : List ClipEntry) (c0 : Nat)
    (k1 k2 : String) (v1 v2 : Nat) (hk : k1 ≠ k2)
    (h1 : ((mapPairs c0 clip).reverse.find? (fun e => e.1 == k1))
        = some (k1, v1))
    (h2 : ((mapPairs c0 clip).reverse.find? (fun e => e.1 == k2))
        = some (k2, v2)) :
    v1 ≠ v2 := by
  have m1 : ((k1, v1) : String × Nat) ∈ mapPairs c0 clip := by
    rw [← List.mem_reverse]
    exact List.mem_of_find?_eq_some h1
  have m2 : ((k2, v2) : String × Nat) ∈ mapPairs c0 clip := by
    rw [← List.mem_reverse]
    exact List.mem_of_find?_eq_some h2
  have hpw := mapPairs_values_distinct c0 clip
  have hsym : Symmetric (fun e1 e2 : String × Nat => e1.2 ≠ e2.2) :=
    fun e1 e2 h => Ne.symm h
  have hne : ((k1, v1) : String × Nat) ≠ (k2, v2) := by
    intro h
    exact hk (by rw [Prod.ext_iff] at h; exact h.1)
  exact List.Pairwise.forall hsym hpw m1 m2 hne

/-- `pasteConnOf` creates a connector exactly for connections whose two
distinct endpoints both resolve in the title map. -/
theorem pasteConnOf_some (cmap : List (String × Nat)) (c : ClipConn)
    (vF vT : Nat)
    (hF : cmap.find? (fun e => e.1 == defaultTitle c.fromId)
        = some (defaultTitle c.fromId, vF))
    (hT : cmap.find? (fun e => e.1 == defaultTitle c.toId)
        = some (defaultTitle c.toId, vT))
    (hne : vF ≠ vT) :
    pasteConnOf cmap c = some ⟨vF, vT⟩ := by
  unfold pasteConnOf
  rw [hF, hT]
  dsimp only
  rw [if_pos hne]

/-- `pasteConnOf` drops a connection when an endpoint lookup fails. -/
theorem pasteConnOf_none (cmap : List (String × Nat)) (c : ClipConn)
    (h : cmap.find? (fun e => e.1 == defaultTitle c.fromId) = none ∨
         cmap.find? (fun e => e.1 == defaultTitle c.toId) = none) :
    pasteConnOf cmap c = none := by
  unfold pasteConnOf
  rcases h with h | h
  · rw [h]
  · rw [h]
    cases cmap.find? (fun e => e.1 == defaultTitle c.fromId) <;> rfl

/-- Double counting: summing, over a duplicate-free selection, the number
of connectors touching each selected card counts every connector (with
both distinct endpoints selected) exactly twice. -/
theorem sum_touch_double (sel : List Nat) (Lb : List Connector)
    (hnd : sel.Nodup)
    (hLb : ∀ conn ∈ Lb, conn.fromId ∈ sel ∧ conn.toId ∈ sel ∧
      conn.fromId ≠ conn.toId) :
    (sel.map (fun cid => Lb.countP (fun conn =>
        conn.fromId == cid || conn.toId == cid))).sum = 2 * Lb.length := by
  induction Lb with
  | nil => simp
  | cons conn L ih =>
    have hconn := hLb conn (List.mem_cons_self conn L)
    have hrw : (sel.map (fun cid => (conn :: L).countP (fun c =>
        c.fromId == cid || c.toId == cid))).sum
        = (sel.map (fun cid => L.countP (fun c =>
            c.fromId == cid || c.toId == cid)
          + if (conn.fromId == cid || conn.toId == cid) then 1 else 0)).sum := by
      congr 1
      apply List.map_congr_left
      intro cid _
      rw [List.countP_cons]
    rw [hrw, sum_map_add, sum_map_indicator,
        countP_or_two_mem sel conn.fromId conn.toId hnd hconn.1 hconn.2.1
          hconn.2.2,
        ih (fun c hc => hLb c (List.mem_cons_of_mem conn hc))]
    simp only [List.length_cons]
    omega

/-- Endpoint ids of every connector created by the second pass of
`pasteCards` come from the title map. -/
theorem newConns_ids (clip : List ClipEntry) (cmap : List (String × Nat))
    (c0 n : Nat) (hvals : ∀ e ∈ cmap, c0 < e.2 ∧ e.2 ≤ c0 + n) :
    ∀ conn ∈ clip.flatMap (fun item =>
        item.connections.filterMap (pasteConnOf cmap)),
      (c0 < conn.fromId ∧ conn.fromId ≤ c0 + n) ∧
      (c0 < conn.toId ∧ conn.toId ≤ c0 + n) := by
  intro conn h
  rw [List.mem_flatMap] at h
  obtain ⟨item, _, hconn⟩ := h
  rw [List.mem_filterMap] at hconn
  obtain ⟨c, _, hc⟩ := hconn
  unfold pasteConnOf at hc
  cases hF : cmap.find? (fun e => e.1 == defaultTitle c.fromId) with
  | none => rw [hF] at hc; simp at hc
  | some eF =>
    cases hT : cmap.find? (fun e => e.1 == defaultTitle c.toId) with
    | none => rw [hF, hT] at hc; simp at hc
    | some eT =>
      rw [hF, hT] at hc
      dsimp only at hc
      by_cases hne : eF.2 ≠ eT.2
      · rw [if_pos hne] at hc
        have := Option.some_inj.mp hc
        rw [← this]
        exact ⟨hvals eF (List.mem_of_find?_eq_some hF),
               hvals eT (List.mem_of_find?_eq_some hT)⟩
      · rw [if_neg hne] at hc
        simp at hc

/-- Length of the connectors created from one clipboard entry: the number
of connectors touching the copied card with both endpoints selected. -/
theorem entry_conns_length (L : List Connector) (cid : Nat)
    (cmap : List (String × Nat)) (sel : List Nat)
    (hpoint : ∀ conn ∈ L,
      (pasteConnOf cmap ⟨conn.fromId, conn.toId⟩).isSome
        = (decide (conn.fromId ∈ sel) && decide (conn.toId ∈ sel))) :
    (((L.filter (fun c => c.fromId == cid || c.toId == cid)).map
        (fun c => (⟨c.fromId, c.toId⟩ : ClipConn))).filterMap
          (pasteConnOf cmap)).length
      = L.countP (fun conn =>
          (decide (conn.fromId ∈ sel) && decide (conn.toId ∈ sel)) &&
          (conn.fromId == cid || conn.toId == cid)) := by
  rw [List.filterMap_map, List.length_filterMap_eq_countP]
  have hcong : (L.filter (fun c => c.fromId == cid || c.toId == cid)).countP
      (fun c => ((pasteConnOf cmap ∘ fun c => (⟨c.fromId, c.toId⟩ : ClipConn)) c).isSome)
      = (L.filter (fun c => c.fromId == cid || c.toId == cid)).countP
        (fun conn => decide (conn.fromId ∈ sel) && decide (conn.toId ∈ sel)) := by
    apply List.countP_congr
    intro conn hmem
    rw [List.mem_filter] at hmem
    rw [show ((pasteConnOf cmap ∘ fun c => (⟨c.fromId, c.toId⟩ : ClipConn)) conn)
        = pasteConnOf cmap ⟨conn.fromId, conn.toId⟩ from rfl]
    rw [hpoint conn hmem.1]
  rw [hcong, List.countP_filter]

/-- Total length of the connectors created by the second pass (the walked
selection `sel` is a sublist of the full selection `selAll` used by the
membership tests). -/
theorem newConns_total (selAll sel : List Nat) (clip : List ClipEntry)
    (L : List Connector) (cmap : List (String × Nat))
    (hrel : List.Forall₂ (fun cid (e : ClipEntry) =>
        e.title = defaultTitle cid ∧
        e.connections = (L.filter (fun c =>
          c.fromId == cid || c.toId == cid)).map (fun c => ⟨c.fromId, c.toId⟩))
      sel clip)
    (hpoint : ∀ conn ∈ L,
      (pasteConnOf cmap ⟨conn.fromId, conn.toId⟩).isSome
        = (decide (conn.fromId ∈ selAll) && decide (conn.toId ∈ selAll))) :
    (clip.flatMap (fun item =>
        item.connections.filterMap (pasteConnOf cmap))).length
      = (sel.map (fun cid => L.countP (fun conn =>
          (decide (conn.fromId ∈ selAll) && decide (conn.toId ∈ selAll)) &&
          (conn.fromId == cid || conn.toId == cid)))).sum := by
  induction hrel with
  | nil => rfl
  | cons h1 h2 ih =>
    rw [List.flatMap_cons, List.length_append, List.map_cons, List.sum_cons,
        h1.2, entry_conns_length L _ cmap selAll hpoint, ih]

/-- The per-card sums add up to twice the number of connectors with both
(distinct) endpoints selected. -/
theorem sum_eq_two_mul (sel : List Nat) (L : List Connector)
    (hnd : sel.Nodup)
    (hirr : ∀ conn ∈ L, conn.fromId ≠ conn.toId) :
    (sel.map (fun cid => L.countP (fun conn =>
        (decide (conn.fromId ∈ sel) && decide (conn.toId ∈ sel)) &&
        (conn.fromId == cid || conn.toId == cid)))).sum
      = 2 * (L.filter (fun conn =>
          decide (conn.fromId ∈ sel) && decide (conn.toId ∈ sel))).length := by
  have hswap : ∀ cid : Nat, L.countP (fun conn =>
      (decide (conn.fromId ∈ sel) && decide (conn.toId ∈ sel)) &&
      (conn.fromId == cid || conn.toId == cid))
      = (L.filter (fun conn =>
          decide (conn.fromId ∈ sel) && decide (conn.toId ∈ sel))).countP
        (fun conn => conn.fromId == cid || conn.toId == cid) := by
    intro cid
    rw [List.countP_filter]
    apply List.countP_congr
    intro conn _
    constructor
    · intro h
      rw [Bool.and_comm] at h
      exact h
    · intro h
      rw [Bool.and_comm] at h
      exact h
  rw [List.map_congr_left (fun cid _ => hswap cid)]
  apply sum_touch_double sel _ hnd
  intro conn hc
  rw [List.mem_filter] at hc
  have hboth := hc.2
  rw [Bool.and_eq_true, decide_eq_true_eq, decide_eq_true_eq] at hboth
  exact ⟨hboth.1, hboth.2, hirr conn hc.1⟩

/-! ### The resolution pass of `pasteCards` at unit zoom -/

/-- `clearSelection` empties the selection when no connection is pending. -/
theorem clearSelection_empty (st : EngineState)
    (h : st.connectingFrom = none) :
    clearSelection st = { st with selectedCards := [] } := by
  unfold clearSelection
  congr 1
  simp [h]

/-- `pasteStep` never touches the connectors. -/
theorem pasteStep_connectors (s oX oY : ℚ)
    (acc : EngineState × List (String × Nat)) (item : ClipEntry) :
    (pasteStep s oX oY acc item).1.connectors = acc.1.connectors := by
  unfold pasteStep
  dsimp only
  exact (selectCard_frame _ _).2.1

/-- The whole first pass never touches the connectors. -/
theorem pasteFold_connectors (items : List ClipEntry) (s oX oY : ℚ)
    (acc : EngineState × List (String × Nat)) :
    (items.foldl (pasteStep s oX oY) acc).1.connectors
      = acc.1.connectors := by
  induction items generalizing acc with
  | nil => rfl
  | cons item rest ih =>
    rw [List.foldl_cons]
    exact (ih _).trans (pasteStep_connectors s oX oY acc item)

/-- At unit zoom, `afterPasteStep` is the identity on a card that
`preventOverlap` leaves in place. -/
theorem afterPasteStep_id (st : EngineState) (i : Nat)
    (hscale : st.scale = 1)
    (hfix : ∀ c, st.cards[i]? = some c →
        preventOverlap st c c.baseX c.baseY = (c.baseX, c.baseY)) :
    afterPasteStep st i = st := by
  unfold afterPasteStep
  cases hget : st.cards[i]? with
  | none => rfl
  | some c =>
    dsimp only
    have hc : ({ c with
        baseX := (preventOverlap st c (c.baseX / st.scale)
          (c.baseY / st.scale)).1 * st.scale
        baseY := (preventOverlap st c (c.baseX / st.scale)
          (c.baseY / st.scale)).2 * st.scale } : Card) = c := by
      rw [hscale]
      simp only [div_one, mul_one]
      rw [hfix c hget]
    rw [hc, set_getElem_self _ _ _ hget]

/-- Folding `afterPasteStep` over indices at which it is the identity. -/
theorem afterPaste_fold_id (l : List Nat) (st : EngineState) :
    (∀ i ∈ l, afterPasteStep st i = st) →
    l.foldl afterPasteStep st = st := by
  induction l with
  | nil => intro _; rfl
  | cons i t ih =>
    intro h
    rw [List.foldl_cons, h i (List.mem_cons_self i t)]
    exact ih (fun j hj => h j (List.mem_cons_of_mem i hj))

/-- Past the first `n` cards, `afterPasteStep` keeps that prefix and the
whole id sequence. -/
theorem afterPasteStep_keeps (st : EngineState) (i n : Nat) (hn : n ≤ i) :
    (afterPasteStep st i).cards.take n = st.cards.take n ∧
    (afterPasteStep st i).cards.map Card.id = st.cards.map Card.id := by
  unfold afterPasteStep
  cases hget : st.cards[i]? with
  | none => exact ⟨rfl, rfl⟩
  | some c =>
    dsimp only
    refine ⟨take_set_of_le _ _ _ _ hn, ?_⟩
    rw [List.map_set]
    apply set_getElem_self
    rw [List.getElem?_map, hget]
    rfl

/-- Folding `afterPasteStep` over indices past `n` keeps the prefix and
the id sequence. -/
theorem afterPaste_fold_keeps (l : List Nat) (st : EngineState) (n : Nat) :
    (∀ i ∈ l, n ≤ i) →
    (l.foldl afterPasteStep st).cards.take n = st.cards.take n ∧
    (l.foldl afterPasteStep st).cards.map Card.id
      = st.cards.map Card.id := by
  induction l generalizing st with
  | nil => intro _; exact ⟨rfl, rfl⟩
  | cons i t ih =>
    intro hl
    rw [List.foldl_cons]
    obtain ⟨h1, h2⟩ := ih (afterPasteStep st i)
      (fun j hj => hl j (List.mem_cons_of_mem i hj))
    obtain ⟨g1, g2⟩ := afterPasteStep_keeps st i n
      (hl i (List.mem_cons_self i t))
    exact ⟨h1.trans g1, h2.trans g2⟩

/-- The resolution pass keeps an already-fixed prefix of cards untouched
and never alters the id sequence. -/
theorem preventOverlapsAfterPaste_prefix (st : EngineState) (n k : Nat)
    (hlen : st.cards.length = n + k)
    (hid : ∀ i, i < n → afterPasteStep st i = st) :
    (preventOverlapsAfterPaste st).cards.take n = st.cards.take n ∧
    (preventOverlapsAfterPaste st).cards.map Card.id
      = st.cards.map Card.id := by
  unfold preventOverlapsAfterPaste
  rw [hlen, List.range_add n k, List.foldl_append]
  rw [afterPaste_fold_id _ st (fun i hi => hid i (List.mem_range.mp hi))]
  apply afterPaste_fold_keeps
  intro i hi
  rw [List.mem_map] at hi
  obtain ⟨j, hj1, hj2⟩ := hi
  omega

/-- At unit zoom, the resolution pass leaves an original card alone when
the originals are grid-aligned and pairwise non-overlapping and all of the
appended cards are selected. -/
theorem afterPasteStep_orig_id (stF : EngineState) (orig newC : List Card)
    (i : Nat)
    (hcards : stF.cards = orig ++ newC)
    (hscale : stF.scale = 1)
    (hgrid : stF.gridSpacing ≠ 0)
    (hi : i < orig.length)
    (halign : ∀ c ∈ orig,
      (∃ k : ℤ, c.baseX = k * stF.gridSpacing) ∧
      (∃ k : ℤ, c.baseY = k * stF.gridSpacing))
    (hnover : ∀ c ∈ orig, ∀ d ∈ orig, c.id ≠ d.id →
      ¬(c.baseX < d.baseX + d.baseWidth ∧ d.baseX < c.baseX + c.baseWidth ∧
        c.baseY < d.baseY + d.baseHeight ∧
        d.baseY < c.baseY + c.baseHeight))
    (hnewSel : ∀ d ∈ newC, d.id ∈ stF.selectedCards) :
    afterPasteStep stF i = stF := by
  apply afterPasteStep_id stF i hscale
  intro c hc
  rw [hcards, List.getElem?_append_left hi] at hc
  have hcm : c ∈ orig := List.getElem?_mem hc
  apply preventOverlap_fixed
  · obtain ⟨⟨kx, hkx⟩, _⟩ := halign c hcm
    rw [hkx, show (kx : ℚ) * stF.gridSpacing
        = kx * (stF.gridSpacing * stF.scale) by rw [hscale, mul_one]]
    exact snapToGrid_multiple stF kx (by rw [hscale, mul_one]; exact hgrid)
  · obtain ⟨_, ⟨ky, hky⟩⟩ := halign c hcm
    rw [hky, show (ky : ℚ) * stF.gridSpacing
        = ky * (stF.gridSpacing * stF.scale) by rw [hscale, mul_one]]
    exact snapToGrid_multiple stF ky (by rw [hscale, mul_one]; exact hgrid)
  · intro d hd hskip
    rw [hcards, List.mem_append] at hd
    rcases hd with hdo | hdn
    · intro hov
      rw [hscale] at hov
      simp only [mul_one, gt_iff_lt] at hov
      exact hnover c hcm d hdo (fun he => hskip (Or.inl he.symm)) hov
    · exact absurd (Or.inr (hnewSel d hdn)) hskip

/-- Membership in the freshly assigned id range. -/
theorem mem_newIdsFrom (c0 n x : Nat) :
    x ∈ newIdsFrom c0 n ↔ (c0 < x ∧ x ≤ c0 + n) := by
  induction n generalizing c0 with
  | zero =>
    constructor
    · intro h
      cases h
    · intro h
      exact absurd (Nat.lt_of_lt_of_le h.1 h.2) (Nat.lt_irrefl c0)
  | succ m ih =>
    rw [show newIdsFrom c0 (m + 1) = (c0 + 1) :: newIdsFrom (c0 + 1) m
          from rfl,
        List.mem_cons, ih (c0 + 1)]
    omega

/-- The ids of the cards created by the first pass. -/
theorem newCardsFrom_map_ids (s oX oY : ℚ) (c0 : Nat)
    (items : List ClipEntry) :
    (newCardsFrom s oX oY c0 items).map Card.id
      = newIdsFrom c0 items.length := by
  induction items generalizing c0 with
  | nil => rfl
  | cons item rest ih =>
    rw [show newCardsFrom s oX oY c0 (item :: rest)
          = pastedCard s oX oY c0 item :: newCardsFrom s oX oY (c0 + 1) rest
        from rfl,
        List.map_cons, ih (c0 + 1),
        show (item :: rest).length = rest.length + 1 from rfl,
        show newIdsFrom c0 (rest.length + 1)
          = (c0 + 1) :: newIdsFrom (c0 + 1) rest.length from rfl]
    rfl

/-- The intermediate state of `pasteCards`: the first pass followed by the
appended reconstructed connectors, before the resolution pass. -/
def pasteMid (q : EngineState) : EngineState :=
  let F := q.clipboard.foldl
    (pasteStep q.scale (20 / q.scale) (20 / q.scale)) (clearSelection q, [])
  { F.1 with connectors := F.1.connectors ++
      q.clipboard.flatMap (fun item =>
        item.connections.filterMap (pasteConnOf F.2)) }

/-- `pasteCards` on a nonempty clipboard is the resolution pass applied to
the intermediate state. -/
theorem pasteCards_eq (q : EngineState) (hclip : q.clipboard ≠ []) :
    pasteCards q = preventOverlapsAfterPaste (pasteMid q) := by
  unfold pasteCards pasteMid
  rw [if_neg hclip]

/-- Components of the intermediate state when no connection is pending. -/
theorem pasteMid_spec (q : EngineState)
    (hcf : q.connectingFrom = none) :
    (pasteMid q).cards = q.cards ++ newCardsFrom q.scale (20 / q.scale)
        (20 / q.scale) q.cardCount q.clipboard ∧
    (pasteMid q).selectedCards
        = newIdsFrom q.cardCount q.clipboard.length ∧
    (pasteMid q).connectors = q.connectors ++
        q.clipboard.flatMap (fun item =>
          item.connections.filterMap (pasteConnOf
            ((mapPairs q.cardCount q.clipboard).reverse))) ∧
    (pasteMid q).scale = q.scale ∧
    (pasteMid q).gridSpacing = q.gridSpacing := by
  unfold pasteMid
  rw [clearSelection_empty q hcf]
  dsimp only
  obtain ⟨f1, f2, f3, f4, f5, f6, f7⟩ :=
    pasteFold_full q.clipboard q.scale (20 / q.scale) (20 / q.scale)
      { q with selectedCards := [] } [] hcf (by intro x hx; cases hx)
  have hm : (q.clipboard.foldl
      (pasteStep q.scale (20 / q.scale) (20 / q.scale))
      ({ q with selectedCards := [] }, [])).2
      = (mapPairs q.cardCount q.clipboard).reverse :=
    f7.trans (List.append_nil _)
  refine ⟨f1, f2.trans rfl, ?_, f4, f5⟩
  rw [hm, pasteFold_connectors]

/-! ### C1 — copy/paste (amended) -/

/-- C1 (amended): under unit zoom, a positive grid, default card titles,
ids bounded by the counter, irreflexive connectors, a nonempty
duplicate-free selection whose titles are unambiguous, and a grid-aligned
pairwise non-overlapping layout, copy-then-paste appends exactly `N` new
cards whose ids differ from every pre-existing id, keeps the original
cards and all old connectors unchanged, and appends exactly `2 * M` new
connectors — each copied connector is reconstructed once per endpoint
clipboard entry — all of which join only the newly created cards. -/
theorem C1_amended (st : EngineState)
    (h_cf : st.connectingFrom = none)
    (h_selne : st.selectedCards ≠ [])
    (h_nd : st.selectedCards.Nodup)
    (h_inj : ∀ a ∈ st.selectedCards, ∀ b ∈ st.selectedCards,
      defaultTitle a = defaultTitle b → a = b)
    (h_titles : ∀ cid ∈ st.selectedCards,
      ((st.cards.find? (fun c => c.id == cid)).map Card.title)
        = some (defaultTitle cid))
    (h_ids : ∀ c ∈ st.cards, c.id ≤ st.cardCount)
    (h_irr : ∀ conn ∈ st.connectors, conn.fromId ≠ conn.toId)
    (h_sep : ∀ conn ∈ st.connectors, ∀ b ∈ st.selectedCards,
      (conn.fromId ∉ st.selectedCards →
        defaultTitle conn.fromId ≠ defaultTitle b) ∧
      (conn.toId ∉ st.selectedCards →
        defaultTitle conn.toId ≠ defaultTitle b))
    (h_scale : st.scale = 1)
    (h_grid : 0 < st.gridSpacing)
    (h_align : ∀ c ∈ st.cards,
      (∃ k : ℤ, c.baseX = k * st.gridSpacing) ∧
      (∃ k : ℤ, c.baseY = k * st.gridSpacing))
    (h_nover : ∀ c ∈ st.cards, ∀ d ∈ st.cards, c.id ≠ d.id →
      ¬(c.baseX < d.baseX + d.baseWidth ∧ d.baseX < c.baseX + c.baseWidth ∧
        c.baseY < d.baseY + d.baseHeight ∧
        d.baseY < c.baseY + c.baseHeight)) :
    ∃ created : List Connector,
      (pasteCards (copyCards st)).cards.length
          = st.cards.length + st.selectedCards.length ∧
      (pasteCards (copyCards st)).cards.take st.cards.length = st.cards ∧
      (∀ c ∈ (pasteCards (copyCards st)).cards.drop st.cards.length,
        ∀ d ∈ st.cards, c.id ≠ d.id) ∧
      (pasteCards (copyCards st)).connectors = st.connectors ++ created ∧
      created.length = 2 * (st.connectors.filter (fun conn =>
          decide (conn.fromId ∈ st.selectedCards) &&
          decide (conn.toId ∈ st.selectedCards))).length ∧
      (∀ conn ∈ created,
        conn.fromId ∈ ((pasteCards (copyCards st)).cards.drop
            st.cards.length).map Card.id ∧
        conn.toId ∈ ((pasteCards (copyCards st)).cards.drop
            st.cards.length).map Card.id) := by
  obtain ⟨hrel, hq_cards, hq_conns, -, hq_cf, hq_scale, hq_grid, hq_count⟩ :=
    copyCards_spec st h_selne h_titles
  have hclipne : (copyCards st).clipboard ≠ [] := by
    intro h
    apply h_selne
    have hlen := hrel.length_eq
    rw [h] at hlen
    exact List.length_eq_zero.mp hlen
  have hN := hrel.length_eq
  have hqcf : (copyCards st).connectingFrom = none := hq_cf.trans h_cf
  rw [pasteCards_eq (copyCards st) hclipne]
  obtain ⟨hP_cards, hP_sel, hP_conns, hP_scale, hP_grid⟩ :=
    pasteMid_spec (copyCards st) hqcf
  obtain ⟨hF_conns, -, -, -, -, -, -, hF_len⟩ :=
    preventOverlapsAfterPaste_frame (pasteMid (copyCards st))
  have hPcards' : (pasteMid (copyCards st)).cards
      = st.cards ++ newCardsFrom (copyCards st).scale
          (20 / (copyCards st).scale) (20 / (copyCards st).scale)
          st.cardCount (copyCards st).clipboard := by
    rw [hP_cards, hq_cards, hq_count]
  have hnewlen : (newCardsFrom (copyCards st).scale
      (20 / (copyCards st).scale) (20 / (copyCards st).scale)
      st.cardCount (copyCards st).clipboard).length
      = (copyCards st).clipboard.length := newCardsFrom_length _ _ _ _ _
  have hid : ∀ i, i < st.cards.length →
      afterPasteStep (pasteMid (copyCards st)) i = pasteMid (copyCards st) := by
    intro i hi
    apply afterPasteStep_orig_id (pasteMid (copyCards st)) st.cards
      (newCardsFrom (copyCards st).scale (20 / (copyCards st).scale)
        (20 / (copyCards st).scale) st.cardCount (copyCards st).clipboard) i
      hPcards' ?hsc ?hg hi ?hal h_nover ?hns
    case hsc => rw [hP_scale, hq_scale, h_scale]
    case hg =>
      rw [hP_grid, hq_grid]
      exact ne_of_gt h_grid
    case hal =>
      intro c hc
      rw [hP_grid, hq_grid]
      exact h_align c hc
    case hns =>
      intro d hd
      rw [hP_sel]
      have hdid : d.id ∈ (newCardsFrom (copyCards st).scale
          (20 / (copyCards st).scale) (20 / (copyCards st).scale)
          st.cardCount (copyCards st).clipboard).map Card.id :=
        List.mem_map_of_mem Card.id hd
      rw [newCardsFrom_map_ids] at hdid
      rw [hq_count]
      exact hdid
  obtain ⟨htake, hmapids⟩ := preventOverlapsAfterPaste_prefix
    (pasteMid (copyCards st)) st.cards.length (copyCards st).clipboard.length
    (by rw [hPcards', List.length_append, hnewlen]) hid
  have htake' : (preventOverlapsAfterPaste
      (pasteMid (copyCards st))).cards.take st.cards.length = st.cards := by
    rw [htake, hPcards', List.take_left]
  have hdropids : ((preventOverlapsAfterPaste
      (pasteMid (copyCards st))).cards.drop st.cards.length).map Card.id
      = newIdsFrom st.cardCount (copyCards st).clipboard.length := by
    rw [List.map_drop, hmapids, hPcards', List.map_append]
    rw [show st.cards.length = (st.cards.map Card.id).length from
        (List.length_map st.cards Card.id).symm]
    rw [List.drop_left, newCardsFrom_map_ids]
  have hdisjoint : ∀ c ∈ (preventOverlapsAfterPaste
      (pasteMid (copyCards st))).cards.drop st.cards.length,
      ∀ d ∈ st.cards, c.id ≠ d.id := by
    intro c hc d hd
    have hcid : c.id ∈ ((preventOverlapsAfterPaste
        (pasteMid (copyCards st))).cards.drop st.cards.length).map Card.id :=
      List.mem_map_of_mem Card.id hc
    rw [hdropids, mem_newIdsFrom] at hcid
    have := h_ids d hd
    omega
  have hconns : (preventOverlapsAfterPaste
      (pasteMid (copyCards st))).connectors
      = st.connectors ++ (copyCards st).clipboard.flatMap (fun item =>
          item.connections.filterMap (pasteConnOf
            ((mapPairs st.cardCount (copyCards st).clipboard).reverse))) := by
    rw [hF_conns, hP_conns, hq_conns, hq_count]
  have hkeys : (mapPairs st.cardCount (copyCards st).clipboard).map Prod.fst
      = st.selectedCards.map defaultTitle := by
    rw [mapPairs_keys]
    exact clip_titles_eq st.selectedCards (copyCards st).clipboard _ hrel
      (fun cid e h => h.1)
  have hndmap : (st.selectedCards.map defaultTitle).Nodup :=
    h_nd.map_on h_inj
  have hpoint : ∀ conn ∈ st.connectors,
      (pasteConnOf ((mapPairs st.cardCount (copyCards st).clipboard).reverse)
          ⟨conn.fromId, conn.toId⟩).isSome
        = (decide (conn.fromId ∈ st.selectedCards) &&
           decide (conn.toId ∈ st.selectedCards)) := by
    intro conn hconn
    by_cases hFm : conn.fromId ∈ st.selectedCards
    · by_cases hTm : conn.toId ∈ st.selectedCards
      · obtain ⟨vF, hvF, -, -⟩ := cmap_lookup_some st.selectedCards
          (copyCards st).clipboard st.cardCount hkeys hndmap conn.fromId hFm
        obtain ⟨vT, hvT, -, -⟩ := cmap_lookup_some st.selectedCards
          (copyCards st).clipboard st.cardCount hkeys hndmap conn.toId hTm
        have hkne : defaultTitle conn.fromId ≠ defaultTitle conn.toId :=
          fun h => h_irr conn hconn (h_inj conn.fromId hFm conn.toId hTm h)
        have hne : vF ≠ vT := cmap_values_distinct (copyCards st).clipboard
          st.cardCount (defaultTitle conn.fromId) (defaultTitle conn.toId)
          vF vT hkne hvF hvT
        rw [pasteConnOf_some ((mapPairs st.cardCount
            (copyCards st).clipboard).reverse) ⟨conn.fromId, conn.toId⟩
            vF vT hvF hvT hne]
        simp [hFm, hTm]
      · have hnone : ((mapPairs st.cardCount
            (copyCards st).clipboard).reverse.find?
            (fun e => e.1 == defaultTitle conn.toId)) = none := by
          apply cmap_lookup_none st.selectedCards (copyCards st).clipboard
            st.cardCount hkeys
          rw [List.mem_map]
          rintro ⟨b, hb, hbe⟩
          exact (h_sep conn hconn b hb).2 hTm hbe.symm
        rw [pasteConnOf_none ((mapPairs st.cardCount
            (copyCards st).clipboard).reverse)
            ⟨conn.fromId, conn.toId⟩ (Or.inr hnone)]
        simp [hTm]
    · have hnone : ((mapPairs st.cardCount
          (copyCards st).clipboard).reverse.find?
          (fun e => e.1 == defaultTitle conn.fromId)) = none := by
        apply cmap_lookup_none st.selectedCards (copyCards st).clipboard
          st.cardCount hkeys
        rw [List.mem_map]
        rintro ⟨b, hb, hbe⟩
        exact (h_sep conn hconn b hb).1 hFm hbe.symm
      rw [pasteConnOf_none ((mapPairs st.cardCount
          (copyCards st).clipboard).reverse)
          ⟨conn.fromId, conn.toId⟩ (Or.inl hnone)]
      simp [hFm]
  have htotal : ((copyCards st).clipboard.flatMap (fun item =>
      item.connections.filterMap (pasteConnOf
        ((mapPairs st.cardCount (copyCards st).clipboard).reverse)))).length
      = 2 * (st.connectors.filter (fun conn =>
          decide (conn.fromId ∈ st.selectedCards) &&
          decide (conn.toId ∈ st.selectedCards))).length := by
    rw [newConns_total st.selectedCards st.selectedCards
        (copyCards st).clipboard st.connectors
        ((mapPairs st.cardCount (copyCards st).clipboard).reverse) hrel hpoint]
    exact sum_eq_two_mul st.selectedCards st.connectors h_nd h_irr
  have hbnd := newConns_ids (copyCards st).clipboard
    ((mapPairs st.cardCount (copyCards st).clipboard).reverse)
    st.cardCount (copyCards st).clipboard.length
    (fun e he => mapPairs_values st.cardCount (copyCards st).clipboard e
      (List.mem_reverse.mp he))
  refine ⟨(copyCards st).clipboard.flatMap (fun item =>
      item.connections.filterMap (pasteConnOf
        ((mapPairs st.cardCount (copyCards st).clipboard).reverse))),
    ?_, htake', hdisjoint, hconns, htotal, ?_⟩
  · rw [hF_len, hPcards', List.length_append, hnewlen, hN]
  · intro conn hcmem
    obtain ⟨⟨hflo, hfhi⟩, htlo, hthi⟩ := hbnd conn hcmem
    constructor
    · rw [hdropids, mem_newIdsFrom]
      exact ⟨hflo, hfhi⟩
    · rw [hdropids, mem_newIdsFrom]
      exact ⟨htlo, hthi⟩

/-- Witness for the amended C1 at the spec's example state: two aligned,
non-overlapping, connected cards with default titles, both selected. -/
theorem C1_amended_witness :
    ∃ created : List Connector,
      (pasteCards (copyCards exPaste)).cards.length
          = exPaste.cards.length + exPaste.selectedCards.length ∧
      (pasteCards (copyCards exPaste)).cards.take exPaste.cards.length
          = exPaste.cards ∧
      (∀ c ∈ (pasteCards (copyCards exPaste)).cards.drop
          exPaste.cards.length, ∀ d ∈ exPaste.cards, c.id ≠ d.id) ∧
      (pasteCards (copyCards exPaste)).connectors
          = exPaste.connectors ++ created ∧
      created.length = 2 * (exPaste.connectors.filter (fun conn =>
          decide (conn.fromId ∈ exPaste.selectedCards) &&
          decide (conn.toId ∈ exPaste.selectedCards))).length ∧
      (∀ conn ∈ created,
        conn.fromId ∈ ((pasteCards (copyCards exPaste)).cards.drop
            exPaste.cards.length).map Card.id ∧
        conn.toId ∈ ((pasteCards (copyCards exPaste)).cards.drop
            exPaste.cards.length).map Card.id) :=
  C1_amended exPaste rfl (by decide) (by decide) (by decide) (by decide)
    (by decide) (by decide) (by decide) rfl (by norm_num [exPaste])
    (by
      intro c hc
      rcases List.mem_cons.mp hc with h1 | hc2
      · subst h1
        exact ⟨⟨2, by norm_num [cardA, exPaste]⟩,
               ⟨2, by norm_num [cardA, exPaste]⟩⟩
      · rcases List.mem_cons.mp hc2 with h1 | hc3
        · subst h1
          exact ⟨⟨8, by norm_num [cardB, exPaste]⟩,
                 ⟨4, by norm_num [cardB, exPaste]⟩⟩
        · cases hc3)
    (by
      intro c hc d hd hne hov
      rcases List.mem_cons.mp hc with h1 | hc2
      · rcases List.mem_cons.mp hd with h2 | hd2
        · subst h1; subst h2
          exact hne rfl
        · rcases List.mem_cons.mp hd2 with h2 | hd3
          · subst h1; subst h2
            norm_num [cardA, cardB] at hov
          · cases hd3
      · rcases List.mem_cons.mp hc2 with h1 | hc3
        · rcases List.mem_cons.mp hd with h2 | hd2
          · subst h1; subst h2
            norm_num [cardA, cardB] at hov
          · rcases List.mem_cons.mp hd2 with h2 | hd3
            · subst h1; subst h2
              exact hne rfl
            · cases hd3
        · cases hc3)

end ICards
